import Mathlib

/-!
Verification of the nfo-editor core against its specification.

This development is a shallow embedding of the Python sources:

* `nfo_editor/utils/xml_parser.py`  — the XML codec (`XmlParser`), modelled at
  the element-tree level.  lxml's `fromstring`/`tostring` pair is the external
  library boundary: it is a faithful bijection between well-formed XML text
  and element trees (pretty-printing only inserts whitespace that the codec
  never reads), so `parse_string ∘ format_xml` is modelled as
  `parseRoot ∘ formatTree` on `Elem`, and a stored serialized fragment is
  modelled as `Fragment`: either the element it serializes (`wf`), or an
  arbitrary string that fails to re-parse (`garbage`).
* `nfo_editor/utils/validation.py` — the three field validators.  Python's
  `int()` and `float()` are modelled by `pyInt` and `pyFloat` on optionally
  signed decimal strings (digit-group underscores, scientific notation and
  hex floats are not modelled; no theorem below exercises them).  `float`
  values are modelled as exact rationals plus `nan`/`inf`; binary64 rounding
  does not change the verdict of any comparison performed below.
* `nfo_editor/batch/models.py`, `nfo_editor/batch/processor.py` — the batch
  task, the field mutation, the terminal-status policy, the concurrent apply
  loop (as a step relation over interleavings), and the directory scanner
  (over an abstract filesystem tree).
* `nfo_editor/batch/task_manager.py` — the task store, with `datetime`
  modelled as an integer timestamp in seconds.
* `web/app.py`'s `search_nfo_files` is absent from the sources (only its
  tests import it); it is modelled from the spec where marked.
-/

namespace NfoSpec

/-! ## Decimal strings: models of Python `str(int)`, `int()`, `float()` -/

/-- Characters removed by Python `str.strip()` with no argument. -/
def pyIsSpace (c : Char) : Bool :=
  c = ' ' || c = '\t' || c = '\n' || c = '\r' || c = Char.ofNat 11 || c = Char.ofNat 12

/-- Model of Python `str.strip()`: drop whitespace from both ends. -/
def pyStrip (cs : List Char) : List Char :=
  ((cs.dropWhile pyIsSpace).reverse.dropWhile pyIsSpace).reverse

theorem dropWhile_all_false {p : Char → Bool} {cs : List Char}
    (h : ∀ c ∈ cs, p c = false) : cs.dropWhile p = cs := by
  cases cs with
  | nil => rfl
  | cons c cs =>
    rw [List.dropWhile_cons, if_neg]
    rw [h c (List.mem_cons_self _ _)]
    simp

theorem pyStrip_eq_self {cs : List Char} (h : ∀ c ∈ cs, pyIsSpace c = false) :
    pyStrip cs = cs := by
  unfold pyStrip
  rw [dropWhile_all_false h, dropWhile_all_false, List.reverse_reverse]
  intro c hc
  exact h c (List.mem_reverse.1 hc)

/-- Decimal digit test (ASCII `0`–`9`). -/
def isDigitChar (c : Char) : Bool :=
  48 ≤ c.toNat && c.toNat ≤ 57

/-- Value of one ASCII digit. -/
def digitVal (c : Char) : Nat := c.toNat - 48

/-- Most-significant-first accumulation of a digit string. -/
def digitsToNat (cs : List Char) : Nat :=
  cs.foldl (fun a c => 10 * a + digitVal c) 0

/-- A nonempty all-digit string, or nothing. -/
def decDigits? (cs : List Char) : Option Nat :=
  if cs ≠ [] ∧ cs.all isDigitChar then some (digitsToNat cs) else none

/-- ASCII digit character for `d < 10`. -/
def digitChar (d : Nat) : Char := Char.ofNat (48 + d)

/-- Digit expansion of a positive natural, most significant first,
prepended to `acc`. -/
def natDigitsAux : Nat → List Char → List Char
  | 0, acc => acc
  | n + 1, acc => natDigitsAux ((n + 1) / 10) (digitChar ((n + 1) % 10) :: acc)
decreasing_by exact Nat.div_lt_self (Nat.succ_pos n) (by norm_num)

/-- Model of Python `str` on a non-negative integer. -/
def natStr (n : Nat) : String :=
  if n = 0 then "0" else ⟨natDigitsAux n []⟩

/-- Model of Python `str` on an `int`. -/
def intStr : Int → String
  | Int.ofNat n => natStr n
  | Int.negSucc n => "-" ++ natStr (n + 1)

/-- Leading-sign split used by `pyInt`. -/
def pyIntSign (cs : List Char) : Bool × List Char :=
  match cs with
  | c :: rest => if c = '-' then (true, rest) else if c = '+' then (false, rest) else (false, cs)
  | [] => (false, [])

/-- Model of Python `int()` on a string: strip whitespace, optional sign,
then a nonempty run of decimal digits. -/
def pyInt (s : String) : Option Int :=
  (decDigits? (pyIntSign (pyStrip s.data)).2).map
    (fun n => if (pyIntSign (pyStrip s.data)).1 then -(n : Int) else (n : Int))

theorem foldl_digits_shift (l : List Char) (a : Nat) :
    l.foldl (fun a c => 10 * a + digitVal c) a =
      a * 10 ^ l.length + l.foldl (fun a c => 10 * a + digitVal c) 0 := by
  induction l generalizing a with
  | nil => simp
  | cons d l ih =>
    rw [List.foldl_cons, List.foldl_cons, ih (10 * a + digitVal d), ih (10 * 0 + digitVal d)]
    simp only [List.length_cons, pow_succ]
    ring

theorem digitsToNat_cons (c : Char) (cs : List Char) :
    digitsToNat (c :: cs) =
      digitVal c * 10 ^ cs.length + digitsToNat cs := by
  simp only [digitsToNat, List.foldl_cons]
  rw [foldl_digits_shift cs (10 * 0 + digitVal c)]
  ring_nf

theorem digitsToNat_append (l1 l2 : List Char) :
    digitsToNat (l1 ++ l2) = digitsToNat l1 * 10 ^ l2.length + digitsToNat l2 := by
  induction l1 with
  | nil => simp [digitsToNat]
  | cons c l ihl =>
    rw [List.cons_append, digitsToNat_cons, digitsToNat_cons, ihl]
    simp only [List.length_append, pow_add]
    ring

theorem digitVal_digitChar {d : Nat} (h : d < 10) : digitVal (digitChar d) = d := by
  interval_cases d <;> decide

theorem isDigitChar_digitChar {d : Nat} (h : d < 10) : isDigitChar (digitChar d) = true := by
  interval_cases d <;> decide

theorem natDigitsAux_eq_append (n : Nat) (acc : List Char) :
    natDigitsAux n acc = natDigitsAux n [] ++ acc := by
  induction n using Nat.strong_induction_on generalizing acc with
  | _ n ih =>
    match n with
    | 0 => simp [natDigitsAux]
    | n + 1 =>
      rw [natDigitsAux, natDigitsAux]
      have hlt : (n + 1) / 10 < n + 1 := Nat.div_lt_self (Nat.succ_pos n) (by norm_num)
      rw [ih _ hlt (digitChar ((n + 1) % 10) :: acc), ih _ hlt [digitChar ((n + 1) % 10)]]
      simp

theorem natDigitsAux_all_digits (n : Nat) :
    ∀ c ∈ natDigitsAux n [], isDigitChar c = true := by
  induction n using Nat.strong_induction_on with
  | _ n ih =>
    match n with
    | 0 => simp [natDigitsAux]
    | n + 1 =>
      rw [natDigitsAux, natDigitsAux_eq_append]
      intro c hc
      rcases List.mem_append.1 hc with h | h
      · exact ih _ (Nat.div_lt_self (Nat.succ_pos n) (by norm_num)) c h
      · have : c = digitChar ((n + 1) % 10) := by simpa using h
        subst this
        exact isDigitChar_digitChar (Nat.mod_lt _ (by norm_num))

theorem digitsToNat_natDigitsAux (n : Nat) :
    digitsToNat (natDigitsAux n []) = n := by
  induction n using Nat.strong_induction_on with
  | _ n ih =>
    match n with
    | 0 => simp [natDigitsAux, digitsToNat]
    | n + 1 =>
      rw [natDigitsAux, natDigitsAux_eq_append]
      have hlt : (n + 1) / 10 < n + 1 := Nat.div_lt_self (Nat.succ_pos n) (by norm_num)
      have hmod : (n + 1) % 10 < 10 := Nat.mod_lt _ (by norm_num)
      rw [digitsToNat_append, ih _ hlt, digitsToNat_cons, digitVal_digitChar hmod]
      simp [digitsToNat]
      omega

theorem natDigitsAux_ne_nil (n : Nat) (h : 0 < n) : natDigitsAux n [] ≠ [] := by
  match n with
  | n + 1 =>
    rw [natDigitsAux, natDigitsAux_eq_append]
    simp

/-- The decimal expansion emitted by `natStr` parses back to its value. -/
theorem decDigits?_natStr (n : Nat) : decDigits? (natStr n).data = some n := by
  by_cases h : n = 0
  · subst h; decide
  · have hpos : 0 < n := Nat.pos_of_ne_zero h
    simp only [natStr, if_neg h]
    rw [decDigits?, if_pos]
    · rw [digitsToNat_natDigitsAux]
    · constructor
      · exact natDigitsAux_ne_nil n hpos
      · rw [List.all_eq_true]
        exact natDigitsAux_all_digits n

theorem natStr_all_digits (n : Nat) : ∀ c ∈ (natStr n).data, isDigitChar c = true := by
  intro c hc
  by_cases h : n = 0
  · subst h
    have : c = '0' := by simpa [natStr] using hc
    subst this; decide
  · simp only [natStr, if_neg h] at hc
    exact natDigitsAux_all_digits n c hc

theorem isDigitChar_not_space {c : Char} (h : isDigitChar c = true) : pyIsSpace c = false := by
  by_contra hsp
  rw [Bool.not_eq_false] at hsp
  have hlt : c.toNat < 48 := by
    simp only [pyIsSpace, Bool.or_eq_true, decide_eq_true_eq] at hsp
    rcases hsp with ((((h1 | h1) | h1) | h1) | h1) | h1 <;> (subst h1; decide)
  simp only [isDigitChar, Bool.and_eq_true, decide_eq_true_eq] at h
  omega

theorem natStr_not_space (n : Nat) : ∀ c ∈ (natStr n).data, pyIsSpace c = false :=
  fun c hc => isDigitChar_not_space (natStr_all_digits n c hc)

theorem pyIntSign_no_sign {cs : List Char} (h : ∀ c ∈ cs, isDigitChar c = true) :
    pyIntSign cs = (false, cs) := by
  cases cs with
  | nil => rfl
  | cons c rest =>
    have hd := h c (List.mem_cons_self _ _)
    have hminus : c ≠ '-' := by intro he; subst he; revert hd; decide
    have hplus : c ≠ '+' := by intro he; subst he; revert hd; decide
    simp [pyIntSign, hminus, hplus]

/-- `int(str(i))` recovers `i`: the serializer/parser pair for actor order. -/
theorem pyInt_intStr (i : Int) : pyInt (intStr i) = some i := by
  cases i with
  | ofNat n =>
    show pyInt (natStr n) = some (n : Int)
    unfold pyInt
    rw [pyStrip_eq_self (natStr_not_space n), pyIntSign_no_sign (natStr_all_digits n)]
    simp [decDigits?_natStr n]
  | negSucc n =>
    show pyInt ("-" ++ natStr (n + 1)) = some (Int.negSucc n)
    unfold pyInt
    have hdata : ("-" ++ natStr (n + 1)).data = '-' :: (natStr (n + 1)).data := by
      rw [String.data_append]
      rfl
    have hstrip : pyStrip ("-" ++ natStr (n + 1)).data = '-' :: (natStr (n + 1)).data := by
      rw [hdata]
      apply pyStrip_eq_self
      intro c hc
      rcases List.mem_cons.1 hc with h | h
      · subst h; decide
      · exact natStr_not_space (n + 1) c h
    have hsign : pyIntSign ('-' :: (natStr (n + 1)).data) =
        (true, (natStr (n + 1)).data) := by
      simp [pyIntSign]
    rw [hstrip, hsign]
    simp [decDigits?_natStr (n + 1), Int.negSucc_eq]

/-- Result of Python `float()`: an exact decimal `finite num scale`
denoting the rational `num / 10 ^ scale`, or a non-finite value.
`nan`/`inf`/`infinity` (any case, optional sign) are accepted as in Python. -/
inductive PyFloat where
  | finite (num : Int) (scale : Nat)
  | nan
  | inf (neg : Bool)
deriving DecidableEq, Repr

/-- The rational value of a finite `PyFloat`. -/
def PyFloat.val : PyFloat → Option ℚ
  | PyFloat.finite num scale => some ((num : ℚ) / (10 : ℚ) ^ scale)
  | _ => none

/-- Decimal mantissa `digits[.digits]` (at least one digit overall) as an
exact scaled integer: `digits.fracdigits` is `(whole·10^k + frac) / 10^k`. -/
def parseMantissa (cs : List Char) : Option (Nat × Nat) :=
  match cs.splitOn '.' with
  | [w] =>
    if w ≠ [] ∧ w.all isDigitChar then some (digitsToNat w, 0) else none
  | [w, f] =>
    if (w ++ f) ≠ [] ∧ (w ++ f).all isDigitChar then
      some (digitsToNat w * 10 ^ f.length + digitsToNat f, f.length)
    else none
  | _ => none

/-- Body of `pyFloat` after stripping, lowercasing and removing the sign. -/
def pyFloatBody (cs : List Char) (neg : Bool) : Option PyFloat :=
  if cs = ['n', 'a', 'n'] then some PyFloat.nan
  else if cs = ['i', 'n', 'f'] ∨ cs = ['i', 'n', 'f', 'i', 'n', 'i', 't', 'y'] then
    some (PyFloat.inf neg)
  else
    (parseMantissa cs).map
      (fun p => PyFloat.finite (if neg then -(p.1 : Int) else (p.1 : Int)) p.2)

/-- Model of Python `float()` on a string (scientific notation and
digit-group underscores are not modelled; no theorem exercises them). -/
def pyFloat (s : String) : Option PyFloat :=
  match (pyStrip s.data).map Char.toLower with
  | '-' :: rest => pyFloatBody rest true
  | '+' :: rest => pyFloatBody rest false
  | cs => pyFloatBody cs false

/-! ## Data model — `nfo_editor/models/nfo_types.py`, `nfo_model.py` -/

/-- `NfoType` enumeration; `value` is the root tag name. -/
inductive NfoType where
  | movie
  | tvshow
  | episodedetails
deriving DecidableEq, Repr

/-- The `value` of each `NfoType` member. -/
def NfoType.value : NfoType → String
  | .movie => "movie"
  | .tvshow => "tvshow"
  | .episodedetails => "episodedetails"

/-- `Actor` dataclass. -/
structure Actor where
  name : String
  role : String := ""
  thumb : String := ""
  order : Int := 0
deriving DecidableEq, Repr

/-- An XML element: tag, attributes, text content and child elements.
`text` is `child.text or ""`: lxml's `None` text and `""` are conflated,
exactly as the parser conflates them. -/
inductive Elem where
  | mk (tag : String) (attrs : List (String × String)) (text : String)
      (children : List Elem)

/-- Tag of an element. -/
def Elem.tag : Elem → String
  | .mk t _ _ _ => t

/-- Attributes of an element. -/
def Elem.attrs : Elem → List (String × String)
  | .mk _ a _ _ => a

/-- Text of an element. -/
def Elem.text : Elem → String
  | .mk _ _ t _ => t

/-- Children of an element. -/
def Elem.children : Elem → List Elem
  | .mk _ _ _ c => c

/-- A serialized XML fragment string as stored in the extra bag:
`etree.tostring` of an element always yields a string `fromstring` inverts
(`wf`), while an arbitrary string put in the bag by other code may fail to
re-parse (`garbage`). -/
inductive Fragment where
  | wf (e : Elem)
  | garbage (s : String)

/-- A value of the extra bag: one fragment, or a list of fragments once the
same tag name repeats (`_add_extra_tag`). -/
inductive ExtraVal where
  | single (f : Fragment)
  | multi (fs : List Fragment)

/-- `NfoData` dataclass.  `extra_tags` is the insertion-ordered dict
modelled as an association list. -/
structure NfoData where
  nfo_type : NfoType
  title : String := ""
  originaltitle : String := ""
  year : String := ""
  plot : String := ""
  runtime : String := ""
  genres : List String := []
  directors : List String := []
  actors : List Actor := []
  studio : String := ""
  rating : String := ""
  poster : String := ""
  fanart : String := ""
  season : String := ""
  episode : String := ""
  aired : String := ""
  extra_tags : List (String × ExtraVal) := []

/-! ## Codec — `nfo_editor/utils/xml_parser.py` -/

/-- The tag names recognized by `_parse_root`'s if/elif chain.  (The
`known_tags` variable computed in `_parse_root` is never consulted: the
chain recognizes the same set for every `NfoType`.) -/
def knownTagsL : List String :=
  ["title", "originaltitle", "year", "plot", "runtime", "studio", "rating",
   "poster", "fanart", "season", "episode", "aired", "genre", "director", "actor"]

/-- Python `str.lower()`, modelled at the character level. -/
def pyLower (s : String) : String := String.mk (s.data.map Char.toLower)

/-- `_detect_type_from_root`: lowercase root tag matched against the members
of `NfoType` in declaration order; unknown root defaults to movie. -/
def detectType (tag : String) : NfoType :=
  let t := pyLower tag
  if t = "movie" then NfoType.movie
  else if t = "tvshow" then NfoType.tvshow
  else if t = "episodedetails" then NfoType.episodedetails
  else NfoType.movie

/-- One step of `_parse_actor`'s loop over the actor element's children.
A malformed `order` (per `int()`) defaults to 0. -/
def parseActorChild (acc : Actor) (c : Elem) : Actor :=
  if c.tag = "name" then { acc with name := c.text }
  else if c.tag = "role" then { acc with role := c.text }
  else if c.tag = "thumb" then { acc with thumb := c.text }
  else if c.tag = "order" then { acc with order := (pyInt c.text).getD 0 }
  else acc

/-- `_parse_actor`. -/
def parseActor (e : Elem) : Actor :=
  e.children.foldl parseActorChild { name := "", role := "", thumb := "", order := 0 }

/-- `_add_extra_tag`: store the serialized element under its tag name,
collapsing to a list when the tag repeats. -/
def addExtraTag (extra : List (String × ExtraVal)) (tag : String) (e : Elem) :
    List (String × ExtraVal) :=
  match extra with
  | [] => [(tag, ExtraVal.single (Fragment.wf e))]
  | (k, v) :: rest =>
    if k = tag then
      match v with
      | ExtraVal.single f => (k, ExtraVal.multi [f, Fragment.wf e]) :: rest
      | ExtraVal.multi fs => (k, ExtraVal.multi (fs ++ [Fragment.wf e])) :: rest
    else (k, v) :: addExtraTag rest tag e

/-- One step of `_parse_root`'s loop over the root's children (the if/elif
chain; scalars are last-wins, lists append, unknown tags go to the bag). -/
def parseChild (d : NfoData) (c : Elem) : NfoData :=
  if c.tag = "title" then { d with title := c.text }
  else if c.tag = "originaltitle" then { d with originaltitle := c.text }
  else if c.tag = "year" then { d with year := c.text }
  else if c.tag = "plot" then { d with plot := c.text }
  else if c.tag = "runtime" then { d with runtime := c.text }
  else if c.tag = "studio" then { d with studio := c.text }
  else if c.tag = "rating" then { d with rating := c.text }
  else if c.tag = "poster" then { d with poster := c.text }
  else if c.tag = "fanart" then { d with fanart := c.text }
  else if c.tag = "season" then { d with season := c.text }
  else if c.tag = "episode" then { d with episode := c.text }
  else if c.tag = "aired" then { d with aired := c.text }
  else if c.tag = "genre" then { d with genres := d.genres ++ [c.text] }
  else if c.tag = "director" then { d with directors := d.directors ++ [c.text] }
  else if c.tag = "actor" then { d with actors := d.actors ++ [parseActor c] }
  else { d with extra_tags := addExtraTag d.extra_tags c.tag c }

/-- `_parse_root` composed with `_detect_type_from_root`: the element-tree
part of `parse_string`. -/
def parseRoot (root : Elem) : NfoData :=
  root.children.foldl parseChild { nfo_type := detectType root.tag }

/-- A child element holding only text. -/
def textElem (tag text : String) : Elem := Elem.mk tag [] text []

/-- `_add_text_element`: emit the element only when the text is non-empty. -/
def optTextElems (tag text : String) : List Elem :=
  if text = "" then [] else [textElem tag text]

/-- `_add_actor_element`: name always, role/thumb only if non-empty, order
always as `str(order)`. -/
def actorElem (a : Actor) : Elem :=
  Elem.mk "actor" [] ""
    ([textElem "name" a.name] ++ optTextElems "role" a.role ++
     optTextElems "thumb" a.thumb ++ [textElem "order" (intStr a.order)])

/-- `_append_xml_string`: re-parse a stored fragment, silently dropping it
when parsing fails. -/
def fragToElems : Fragment → List Elem
  | Fragment.wf e => [e]
  | Fragment.garbage _ => []

/-- The elements re-injected for one extra-bag value (`_add_extra_tags`,
one entry). -/
def extraValElems : ExtraVal → List Elem
  | ExtraVal.single f => fragToElems f
  | ExtraVal.multi fs => (fs.map fragToElems).flatten

/-- The elements re-injected for the whole extra bag (`_add_extra_tags`). -/
def extrasElems (ex : List (String × ExtraVal)) : List Elem :=
  (ex.map (fun kv => extraValElems kv.2)).flatten

/-- `format_xml`'s element-tree construction (the XML declaration and
pretty-printing of the final `tostring` add only markup the parser never
reads). -/
def formatTree (d : NfoData) : Elem :=
  Elem.mk d.nfo_type.value [] ""
    (optTextElems "title" d.title ++
     optTextElems "originaltitle" d.originaltitle ++
     optTextElems "year" d.year ++
     optTextElems "plot" d.plot ++
     optTextElems "runtime" d.runtime ++
     optTextElems "studio" d.studio ++
     optTextElems "rating" d.rating ++
     (d.genres.map (optTextElems "genre")).flatten ++
     (d.directors.map (optTextElems "director")).flatten ++
     d.actors.map actorElem ++
     optTextElems "poster" d.poster ++
     optTextElems "fanart" d.fanart ++
     (if d.nfo_type = NfoType.tvshow ∨ d.nfo_type = NfoType.episodedetails then
        optTextElems "season" d.season ++ optTextElems "episode" d.episode ++
        optTextElems "aired" d.aired
      else []) ++
     extrasElems d.extra_tags)

/-! ## Validator — `nfo_editor/utils/validation.py` -/

/-- `ValidationResult` dataclass (messages abridged to fixed texts; no
theorem depends on message contents). -/
structure ValidationResult where
  is_valid : Bool
  field : String
  message : String := ""
deriving DecidableEq, Repr

/-- `validate_year`: empty passes; else `int(year.strip())` must exist and
lie in `[1900, 2100]`. -/
def validate_year (year : String) : ValidationResult :=
  if year = "" ∨ pyStrip year.data = [] then
    { is_valid := true, field := "year" }
  else
    match pyInt year with
    | none =>
      { is_valid := false, field := "year", message := "Year must be a valid integer" }
    | some y =>
      if y < 1900 ∨ 2100 < y then
        { is_valid := false, field := "year", message := "Year must be between 1900 and 2100" }
      else
        { is_valid := true, field := "year" }

/-- `validate_rating`: empty passes; else `float(rating.strip())` must
exist, be finite and lie in `[0, 10]`. -/
def validate_rating (rating : String) : ValidationResult :=
  if rating = "" ∨ pyStrip rating.data = [] then
    { is_valid := true, field := "rating" }
  else
    match pyFloat rating with
    | none =>
      { is_valid := false, field := "rating", message := "Rating must be a valid number" }
    | some PyFloat.nan =>
      { is_valid := false, field := "rating", message := "Rating must be a finite number" }
    | some (PyFloat.inf _) =>
      { is_valid := false, field := "rating", message := "Rating must be a finite number" }
    | some (PyFloat.finite num scale) =>
      -- `rating_float < 0 or rating_float > 10` on the exact value
      -- `num / 10 ^ scale`; see `finite_range_check` below.
      if num < 0 ∨ (10 : Int) * 10 ^ scale < num then
        { is_valid := false, field := "rating", message := "Rating must be between 0 and 10" }
      else
        { is_valid := true, field := "rating" }

/-- `validate_runtime`: empty passes; else `int(runtime.strip())` must
exist and be strictly positive. -/
def validate_runtime (runtime : String) : ValidationResult :=
  if runtime = "" ∨ pyStrip runtime.data = [] then
    { is_valid := true, field := "runtime" }
  else
    match pyInt runtime with
    | none =>
      { is_valid := false, field := "runtime", message := "Runtime must be a valid integer" }
    | some r =>
      if r ≤ 0 then
        { is_valid := false, field := "runtime", message := "Runtime must be a positive integer" }
      else
        { is_valid := true, field := "runtime" }

/-- The integer range check used in `validate_rating` is exactly the
source's comparison `value < 0 or value > 10` on the represented rational
`num / 10 ^ scale`. -/
theorem finite_range_check (num : Int) (scale : Nat) :
    (num < 0 ∨ (10 : Int) * 10 ^ scale < num) ↔
      ((num : ℚ) / (10 : ℚ) ^ scale < 0 ∨ 10 < (num : ℚ) / (10 : ℚ) ^ scale) := by
  have hpos : (0 : ℚ) < (10 : ℚ) ^ scale := by positivity
  rw [div_lt_iff₀ hpos, zero_mul, lt_div_iff₀ hpos]
  constructor
  · rintro (h | h)
    · exact Or.inl (by exact_mod_cast h)
    · exact Or.inr (by exact_mod_cast h)
  · rintro (h | h)
    · exact Or.inl (by exact_mod_cast h)
    · exact Or.inr (by exact_mod_cast h)

/-- `validate_nfo_data`: run all three, collect failures. -/
def validate_nfo_data (d : NfoData) : Bool × List ValidationResult :=
  let results :=
    (if (validate_year d.year).is_valid then [] else [validate_year d.year]) ++
    (if (validate_rating d.rating).is_valid then [] else [validate_rating d.rating]) ++
    (if (validate_runtime d.runtime).is_valid then [] else [validate_runtime d.runtime])
  (results.length = 0, results)

/-! ## Batch models — `nfo_editor/batch/models.py` -/

/-- `TaskStatus` enumeration. -/
inductive TaskStatus where
  | pending
  | running
  | completed
  | failed
deriving DecidableEq, Repr

/-- `BatchTask` dataclass (the `preview_files` list and the non-observable
`_count_lock` are omitted; atomicity of counter updates is modelled by the
step relation below taking whole increments as single steps). -/
structure BatchTask where
  task_id : String
  status : TaskStatus
  total_files : Nat
  processed_files : Nat
  success_count : Nat
  failed_count : Nat
  errors : List String
  created_at : Int
  field : String
  value : String
  mode : String
  directory : String
deriving DecidableEq, Repr

/-! ## Batch processor — `nfo_editor/batch/processor.py` -/

/-- `_apply_field`.  The studio branch assigns unconditionally — the mode
is never consulted for studio; genre/director raise on a mode other than
overwrite/append.  An unrecognized field name falls through without
mutating or raising. -/
def applyField (d : NfoData) (field value mode : String) : Except String NfoData :=
  if field = "studio" then
    Except.ok { d with studio := value }
  else if field = "genre" then
    if mode = "overwrite" then Except.ok { d with genres := [value] }
    else if mode = "append" then Except.ok { d with genres := d.genres ++ [value] }
    else Except.error "Invalid mode"
  else if field = "director" then
    if mode = "overwrite" then Except.ok { d with directors := [value] }
    else if mode = "append" then Except.ok { d with directors := d.directors ++ [value] }
    else Except.error "Invalid mode"
  else Except.ok d

/-- The terminal-status policy at the end of `apply`: Failed iff there were
failures and no successes, else Completed. -/
def finalStatus (success_count failed_count : Nat) : TaskStatus :=
  if 0 < failed_count ∧ success_count = 0 then TaskStatus.failed else TaskStatus.completed

/-- The observable counter state of one `apply` run over `total` files:
`pendingUnits` work units not yet executed, `unjoined` units whose worker
has recorded success/failure but whose future the joining loop has not yet
consumed. -/
structure ApplyState where
  total : Nat
  pendingUnits : Nat
  unjoined : Nat
  success_count : Nat
  failed_count : Nat
  processed_files : Nat
  status : TaskStatus
deriving DecidableEq, Repr

/-- State of `apply` right after `task.status = RUNNING; task.total_files
= len(files)` and the submission of the `K` work units. -/
def initApply (K : Nat) : ApplyState :=
  { total := K, pendingUnits := K, unjoined := 0, success_count := 0,
    failed_count := 0, processed_files := 0, status := TaskStatus.running }

/-- Interleaving steps of `apply`: a worker finishes a unit with
`increment_success` or `increment_failed` (each unit increments exactly one
of the two, inside `_apply_file`'s catch-all), the joining loop consumes a
completed future and calls `increment_processed`, and after all futures are
joined the main thread sets the terminal status. -/
inductive ApplyStep : ApplyState → ApplyState → Prop
  | workSuccess (s : ApplyState) : 0 < s.pendingUnits →
      ApplyStep s { s with pendingUnits := s.pendingUnits - 1, unjoined := s.unjoined + 1,
                           success_count := s.success_count + 1 }
  | workFailed (s : ApplyState) : 0 < s.pendingUnits →
      ApplyStep s { s with pendingUnits := s.pendingUnits - 1, unjoined := s.unjoined + 1,
                           failed_count := s.failed_count + 1 }
  | join (s : ApplyState) : 0 < s.unjoined →
      ApplyStep s { s with unjoined := s.unjoined - 1,
                           processed_files := s.processed_files + 1 }
  | finish (s : ApplyState) : s.pendingUnits = 0 → s.unjoined = 0 →
      s.status = TaskStatus.running →
      ApplyStep s { s with status := finalStatus s.success_count s.failed_count }

/-- The states reachable during an `apply` run over `K` files. -/
def ApplyReachable (K : Nat) (s : ApplyState) : Prop :=
  Relation.ReflTransGen ApplyStep (initApply K) s

/-! ## Task store — `nfo_editor/batch/task_manager.py` -/

/-- `MAX_CONCURRENT_TASKS`. -/
def MAX_CONCURRENT_TASKS : Nat := 5

/-- `_TTL_SECONDS`. -/
def TTL_SECONDS : Int := 1800

/-- `CLEANUP_INTERVAL`. -/
def CLEANUP_INTERVAL : Nat := 100

/-- The task registry: the insertion-ordered `_tasks` dict as an
association list, plus `_add_count`. -/
structure TaskManagerState where
  tasks : List (String × BatchTask)
  addCount : Nat
deriving DecidableEq, Repr

/-- `_cleanup_expired_unlocked`: drop every task created strictly before
`now - TTL`. -/
def cleanupExpired (now : Int) (tasks : List (String × BatchTask)) :
    List (String × BatchTask) :=
  tasks.filter (fun kv => ¬ (kv.2.created_at < now - TTL_SECONDS))

/-- Python dict assignment `self._tasks[task.task_id] = task`: replace in
place if the key exists, else append. -/
def dictSet (tasks : List (String × BatchTask)) (k : String) (v : BatchTask) :
    List (String × BatchTask) :=
  if tasks.any (fun kv => kv.1 = k) then
    tasks.map (fun kv => if kv.1 = k then (k, v) else kv)
  else tasks ++ [(k, v)]

/-- `TaskManager.add`: at capacity, sweep expired tasks first and reject
only if still at capacity; then insert (overwriting any same-id task) and
run the periodic every-100th-add sweep. -/
def addTask (now : Int) (st : TaskManagerState) (t : BatchTask) :
    Except String TaskManagerState :=
  let tasks0 :=
    if MAX_CONCURRENT_TASKS ≤ st.tasks.length then cleanupExpired now st.tasks
    else st.tasks
  if MAX_CONCURRENT_TASKS ≤ tasks0.length then
    Except.error "Maximum concurrent tasks limit (5) reached"
  else
    let tasks1 := dictSet tasks0 t.task_id t
    let ac := st.addCount + 1
    if ac % CLEANUP_INTERVAL = 0 then
      Except.ok { tasks := cleanupExpired now tasks1, addCount := ac }
    else
      Except.ok { tasks := tasks1, addCount := ac }

/-! ## Directory scanner — `BatchProcessor._scan_nfo_files` -/

/-- `MAX_SCAN_DEPTH`. -/
def MAX_SCAN_DEPTH : Nat := 50

/-- An abstract filesystem entry: a plain file, or a directory whose
`iterdir` either raises PermissionError (`denied = true`) or yields
`entries` in order. -/
inductive FsEntry where
  | file (name : String)
  | dir (name : String) (denied : Bool) (entries : List FsEntry)

/-- Python `name.startswith('.')`: the first character is a dot. -/
def startsWithDot (n : String) : Bool := n.data.head? = some '.'

/-- `Path.suffix` of a file name: the last dot-suffix, empty for a name
with no dot or only a leading dot. -/
def afterLastDot : List Char → Option (List Char)
  | [] => none
  | c :: cs =>
    match afterLastDot cs with
    | some s => some s
    | none => if c = '.' then some cs else none

/-- Lowercased `Path(name).suffix`. -/
def pathSuffixLower (name : String) : String :=
  match name.data with
  | [] => ""
  | _ :: cs =>
    match afterLastDot cs with
    | some s => String.mk ('.' :: s.map Char.toLower)
    | none => ""

/-- The scanning loop over one directory's entries at recursion depth `d`:
dot-named entries are skipped, `.nfo` files (case-insensitive suffix) are
collected in iteration order, subdirectories are scanned at `d + 1` — the
depth guard runs on entry (raising `RuntimeError`, modelled as `.error`),
and a denied subdirectory's PermissionError is caught inside its own call,
yielding no files.  Errors propagate and abort the scan. -/
def scanEntries : List FsEntry → Nat → Except Unit (List String)
  | [], _ => Except.ok []
  | FsEntry.file n :: rest, d =>
    if startsWithDot n then scanEntries rest d
    else if pathSuffixLower n = ".nfo" then
      match scanEntries rest d with
      | Except.ok r => Except.ok (n :: r)
      | Except.error e => Except.error e
    else scanEntries rest d
  | FsEntry.dir n dn sub :: rest, d =>
    if startsWithDot n then scanEntries rest d
    else if MAX_SCAN_DEPTH < d + 1 then Except.error ()
    else
      match (if dn then Except.ok [] else scanEntries sub (d + 1)) with
      | Except.error e => Except.error e
      | Except.ok cf =>
        match scanEntries rest d with
        | Except.ok rf => Except.ok (cf ++ rf)
        | Except.error e => Except.error e

/-- `_scan_nfo_files` called on the scan root (depth 0): the root's own
depth guard (`0 > 50`) never fires; a denied root yields no files. -/
def scanNfoFiles (rootDenied : Bool) (entries : List FsEntry) : Except Unit (List String) :=
  if MAX_SCAN_DEPTH < 0 then Except.error ()
  else if rootDenied then Except.ok []
  else scanEntries entries 0

/-! ## Bounded search — `web/app.py` (absent from the sources) -/

/-- Modelled from the spec: `search_nfo_files` is code of this repository
missing from `src/web/app.py` (only `tests/test_search.py` imports it).
Per the spec's batch result-count bound, a bounded search over candidates
returns at most `maxResults` matches together with a `truncated` flag that
is true iff the number of matching candidates exceeds `maxResults`. -/
def searchNfoFiles (p : String → Bool) (candidates : List String) (maxResults : Nat) :
    List String × Bool :=
  let found := candidates.filter p
  (found.take maxResults, decide (maxResults < found.length))

/-! ## Apply-state invariant (helpers shared by several claims) -/

/-- Inductive invariant of the `apply` interleaving model. -/
def applyInv (s : ApplyState) : Prop :=
  s.pendingUnits + s.unjoined + s.processed_files = s.total ∧
  s.success_count + s.failed_count = s.unjoined + s.processed_files ∧
  (s.status ≠ TaskStatus.running →
    s.pendingUnits = 0 ∧ s.unjoined = 0 ∧
    s.status = finalStatus s.success_count s.failed_count)

theorem applyInv_init (K : Nat) : applyInv (initApply K) := by
  refine ⟨rfl, rfl, fun h => absurd rfl h⟩

theorem applyInv_step {s t : ApplyState} (hs : applyInv s) (hstep : ApplyStep s t) :
    applyInv t := by
  obtain ⟨h1, h2, h3⟩ := hs
  cases hstep with
  | workSuccess hp =>
    refine ⟨by dsimp only; omega, by dsimp only; omega, ?_⟩
    intro hne
    exact absurd (h3 hne).1 (by omega)
  | workFailed hp =>
    refine ⟨by dsimp only; omega, by dsimp only; omega, ?_⟩
    intro hne
    exact absurd (h3 hne).1 (by omega)
  | join hu =>
    refine ⟨by dsimp only; omega, by dsimp only; omega, ?_⟩
    intro hne
    exact absurd (h3 hne).2.1 (by omega)
  | finish hp hu hrun =>
    exact ⟨h1, h2, fun _ => ⟨hp, hu, rfl⟩⟩

theorem applyInv_reachable {K : Nat} {s : ApplyState} (h : ApplyReachable K s) :
    applyInv s := by
  induction h with
  | refl => exact applyInv_init K
  | tail _ hstep ih => exact applyInv_step ih hstep

/-! ## Claims -/

/-- C3 (counterexample): in the reachable state where the single worker has
recorded its success but the joining loop has not yet incremented
`processed_files`, the claimed invariant
`success_count + failed_count ≤ processed_files` fails: workers record
success/failure *before* the joining thread increments the processed
counter, so the inequality runs the other way. -/
theorem batch_counter_claim_counterexample :
    ApplyReachable 1
      { total := 1, pendingUnits := 0, unjoined := 1, success_count := 1,
        failed_count := 0, processed_files := 0, status := TaskStatus.running } ∧
    ¬ ((1 : Nat) + 0 ≤ 0) := by
  refine ⟨Relation.ReflTransGen.single ?_, by omega⟩
  exact ApplyStep.workSuccess (initApply 1) (by decide)

/-- C3 (amended): in every state reachable during a batch apply, a task
satisfies `processed_files ≤ total_files` and
`processed_files ≤ success_count + failed_count ≤ total_files` (workers
record success/failure before the joining thread increments
`processed_files`), with
`success_count + failed_count = processed_files = total_files` once the
task reaches a terminal status. -/
theorem batch_counters_invariant {K : Nat} {s : ApplyState} (h : ApplyReachable K s) :
    s.processed_files ≤ s.total ∧
    s.processed_files ≤ s.success_count + s.failed_count ∧
    s.success_count + s.failed_count ≤ s.total ∧
    (s.status ≠ TaskStatus.running →
      s.success_count + s.failed_count = s.total ∧ s.processed_files = s.total) := by
  obtain ⟨h1, h2, h3⟩ := applyInv_reachable h
  refine ⟨by omega, by omega, by omega, ?_⟩
  intro hne
  obtain ⟨hp, hu, -⟩ := h3 hne
  omega

theorem batch_counters_invariant_witness :
    (initApply 2).processed_files ≤ (initApply 2).total ∧
    (initApply 2).processed_files ≤ (initApply 2).success_count + (initApply 2).failed_count ∧
    (initApply 2).success_count + (initApply 2).failed_count ≤ (initApply 2).total ∧
    ((initApply 2).status ≠ TaskStatus.running →
      (initApply 2).success_count + (initApply 2).failed_count = (initApply 2).total ∧
      (initApply 2).processed_files = (initApply 2).total) :=
  batch_counters_invariant Relation.ReflTransGen.refl

/-- C4 (counterexample): applying a batch edit with field `studio` and mode
`append` does not raise — `_apply_field`'s studio branch assigns
unconditionally, so the call succeeds and overwrites the studio field. -/
theorem studio_append_counterexample :
    applyField { nfo_type := NfoType.movie, studio := "Old Studio" } "studio" "Disney" "append" =
      Except.ok { nfo_type := NfoType.movie, studio := "Disney" } ∧
    ({ nfo_type := NfoType.movie, studio := "Old Studio" } : NfoData).studio = "Old Studio" :=
  ⟨rfl, rfl⟩

/-- C4 (amended): applying a batch edit with field `studio` ignores the
mode entirely: for every mode (including `append`) it succeeds without
raising and overwrites the record's studio field with the new value. -/
theorem studio_overwrites_for_every_mode (d : NfoData) (value mode : String) :
    applyField d "studio" value mode = Except.ok { d with studio := value } := rfl

/-- C5: once `apply` has finished processing all files (the task's status
is terminal), the status is Failed iff `success_count = 0` and
`failed_count ≥ 1`; in every other case it is Completed. -/
theorem terminal_status_policy {K : Nat} {s : ApplyState} (h : ApplyReachable K s)
    (hterm : s.status ≠ TaskStatus.running) :
    (s.status = TaskStatus.failed ↔ s.success_count = 0 ∧ 1 ≤ s.failed_count) ∧
    (s.status = TaskStatus.completed ↔ ¬ (s.success_count = 0 ∧ 1 ≤ s.failed_count)) := by
  obtain ⟨-, -, h3⟩ := applyInv_reachable h
  obtain ⟨-, -, hstat⟩ := h3 hterm
  rw [hstat]
  unfold finalStatus
  by_cases hc : 0 < s.failed_count ∧ s.success_count = 0
  · rw [if_pos hc]
    constructor
    · exact ⟨fun _ => ⟨hc.2, hc.1⟩, fun _ => rfl⟩
    · exact ⟨fun h' => absurd h' (by decide), fun h' => absurd ⟨hc.2, hc.1⟩ h'⟩
  · rw [if_neg hc]
    constructor
    · exact ⟨fun h' => absurd h' (by decide), fun h' => absurd ⟨h'.2, h'.1⟩ hc⟩
    · exact ⟨fun _ h' => hc ⟨h'.2, h'.1⟩, fun _ => rfl⟩

/-- The zero-file batch reaches the Completed status (witness run for the
terminal-status policy). -/
theorem terminal_status_policy_witness :
    ApplyReachable 0
      { total := 0, pendingUnits := 0, unjoined := 0, success_count := 0,
        failed_count := 0, processed_files := 0, status := TaskStatus.completed } ∧
    (({ total := 0, pendingUnits := 0, unjoined := 0, success_count := 0,
        failed_count := 0, processed_files := 0,
        status := TaskStatus.completed } : ApplyState).status = TaskStatus.failed ↔
      (0 : Nat) = 0 ∧ 1 ≤ (0 : Nat)) := by
  have hr : ApplyReachable 0
      { total := 0, pendingUnits := 0, unjoined := 0, success_count := 0,
        failed_count := 0, processed_files := 0, status := TaskStatus.completed } :=
    Relation.ReflTransGen.single (ApplyStep.finish (initApply 0) rfl rfl rfl)
  exact ⟨hr, (terminal_status_policy hr (by decide)).1⟩

/-- Shared helper: at capacity with nothing expired, `add` rejects. -/
theorem addTask_full_unexpired_error (now : Int) (st : TaskManagerState) (t : BatchTask)
    (hlen : st.tasks.length = 5)
    (hall : ∀ kv ∈ st.tasks, ¬ (kv.2.created_at < now - TTL_SECONDS)) :
    addTask now st t = Except.error "Maximum concurrent tasks limit (5) reached" := by
  have hfull : cleanupExpired now st.tasks = st.tasks := by
    apply List.filter_eq_self.2
    intro kv hkv
    have := hall kv hkv
    simp only [decide_eq_true_eq]
    omega
  have h0 : MAX_CONCURRENT_TASKS ≤ st.tasks.length := by
    rw [hlen]
    decide
  unfold addTask
  rw [if_pos h0, hfull, if_pos h0]

/-- C6: with 5 live tasks, `add` rejects when none is older than the TTL,
succeeds when at least one is (the sweep makes room), and never rejects
below 5 live tasks. -/
theorem task_store_capacity (now : Int) (st : TaskManagerState) (t : BatchTask) :
    (st.tasks.length = 5 →
      (∀ kv ∈ st.tasks, ¬ (kv.2.created_at < now - TTL_SECONDS)) →
      addTask now st t = Except.error "Maximum concurrent tasks limit (5) reached") ∧
    (st.tasks.length = 5 →
      (∃ kv ∈ st.tasks, kv.2.created_at < now - TTL_SECONDS) →
      ∃ st2, addTask now st t = Except.ok st2) ∧
    (st.tasks.length < 5 →
      ∃ st2, addTask now st t = Except.ok st2) := by
  refine ⟨addTask_full_unexpired_error now st t, ?_, ?_⟩
  · intro hlen hex
    have hlt : (cleanupExpired now st.tasks).length < st.tasks.length := by
      apply List.length_filter_lt_length_iff_exists.2
      obtain ⟨kv, hkv, hexp⟩ := hex
      refine ⟨kv, hkv, ?_⟩
      simp only [decide_eq_true_eq]
      omega
    have h0 : MAX_CONCURRENT_TASKS ≤ st.tasks.length := by
      rw [hlen]
      decide
    have h1 : ¬ MAX_CONCURRENT_TASKS ≤ (cleanupExpired now st.tasks).length := by
      unfold MAX_CONCURRENT_TASKS
      omega
    unfold addTask
    rw [if_pos h0, if_neg h1]
    by_cases hc : (st.addCount + 1) % CLEANUP_INTERVAL = 0
    · exact ⟨_, by rw [if_pos hc]⟩
    · exact ⟨_, by rw [if_neg hc]⟩
  · intro hlen
    have h0 : ¬ MAX_CONCURRENT_TASKS ≤ st.tasks.length := by
      unfold MAX_CONCURRENT_TASKS
      omega
    unfold addTask
    rw [if_neg h0, if_neg h0]
    by_cases hc : (st.addCount + 1) % CLEANUP_INTERVAL = 0
    · exact ⟨_, by rw [if_pos hc]⟩
    · exact ⟨_, by rw [if_neg hc]⟩

/-- A throwaway task record for concrete task-store runs. -/
def mkTask (id : String) (created : Int) : BatchTask :=
  { task_id := id, status := TaskStatus.pending, total_files := 0,
    processed_files := 0, success_count := 0, failed_count := 0, errors := [],
    created_at := created, field := "studio", value := "", mode := "overwrite",
    directory := "/m" }

/-- A full store of five unexpired tasks at `now = 100`. -/
def fullStore : TaskManagerState :=
  { tasks := [("a", mkTask "a" 0), ("b", mkTask "b" 0), ("c", mkTask "c" 0),
              ("d", mkTask "d" 0), ("e", mkTask "e" 0)], addCount := 0 }

/-- The same store with task `a` created 2000 seconds before `now = 100`. -/
def fullStoreOneExpired : TaskManagerState :=
  { tasks := [("a", mkTask "a" (-1900)), ("b", mkTask "b" 0), ("c", mkTask "c" 0),
              ("d", mkTask "d" 0), ("e", mkTask "e" 0)], addCount := 0 }

theorem task_store_capacity_witness :
    addTask 100 fullStore (mkTask "f" 90) =
      Except.error "Maximum concurrent tasks limit (5) reached" ∧
    (∃ st2, addTask 100 fullStoreOneExpired (mkTask "f" 90) = Except.ok st2) ∧
    (∃ st2, addTask 100 { tasks := [("a", mkTask "a" 0)], addCount := 0 } (mkTask "f" 90) =
      Except.ok st2) := by
  refine ⟨?_, ?_, ?_⟩
  · exact (task_store_capacity 100 fullStore (mkTask "f" 90)).1 (by decide) (by decide)
  · exact (task_store_capacity 100 fullStoreOneExpired (mkTask "f" 90)).2.1 (by decide)
      ⟨("a", mkTask "a" (-1900)), by decide, by decide⟩
  · exact (task_store_capacity 100 { tasks := [("a", mkTask "a" 0)], addCount := 0 }
      (mkTask "f" 90)).2.2 (by decide)

/-- C10: at capacity with 5 live unexpired tasks, `add` rejects even a task
whose id is already present (the length check precedes the dict overwrite);
below capacity the same-id add succeeds by replacing the entry in place. -/
theorem task_store_same_id (now : Int) (st : TaskManagerState) (t : BatchTask) :
    (st.tasks.length = 5 →
      (∀ kv ∈ st.tasks, ¬ (kv.2.created_at < now - TTL_SECONDS)) →
      (∃ kv ∈ st.tasks, kv.1 = t.task_id) →
      addTask now st t = Except.error "Maximum concurrent tasks limit (5) reached") ∧
    (st.tasks.length < 5 → (st.addCount + 1) % CLEANUP_INTERVAL ≠ 0 →
      st.tasks.any (fun kv => kv.1 = t.task_id) = true →
      addTask now st t =
        Except.ok
          { tasks := st.tasks.map (fun kv => if kv.1 = t.task_id then (t.task_id, t) else kv),
            addCount := st.addCount + 1 }) := by
  constructor
  · intro hlen hall _
    exact addTask_full_unexpired_error now st t hlen hall
  · intro hlen hmod hmem
    have h0 : ¬ MAX_CONCURRENT_TASKS ≤ st.tasks.length := by
      unfold MAX_CONCURRENT_TASKS
      omega
    unfold addTask
    rw [if_neg h0, if_neg h0, if_neg hmod]
    unfold dictSet
    rw [if_pos hmem]

theorem task_store_same_id_witness :
    addTask 100 fullStore (mkTask "c" 90) =
      Except.error "Maximum concurrent tasks limit (5) reached" ∧
    addTask 100 { tasks := [("a", mkTask "a" 0)], addCount := 0 } (mkTask "a" 90) =
      Except.ok { tasks := [("a", mkTask "a" 90)], addCount := 1 } := by
  constructor
  · exact (task_store_same_id 100 fullStore (mkTask "c" 90)).1 (by decide) (by decide)
      ⟨("c", mkTask "c" 0), by decide, by decide⟩
  · exact (task_store_same_id 100 { tasks := [("a", mkTask "a" 0)], addCount := 0 }
      (mkTask "a" 90)).2 (by decide) (by decide) (by decide)

/-- C7: the three validators (total functions — they never raise) decide
exactly the claimed boundaries, and the empty string passes each. -/
theorem validator_boundaries :
    (validate_year "1899").is_valid = false ∧
    (validate_year "1900").is_valid = true ∧
    (validate_year "2100").is_valid = true ∧
    (validate_year "2101").is_valid = false ∧
    (validate_year "").is_valid = true ∧
    (validate_rating "-0.01").is_valid = false ∧
    (validate_rating "0").is_valid = true ∧
    (validate_rating "10").is_valid = true ∧
    (validate_rating "10.01").is_valid = false ∧
    (validate_rating "nan").is_valid = false ∧
    (validate_rating "NaN").is_valid = false ∧
    (validate_rating "Infinity").is_valid = false ∧
    (validate_rating "-inf").is_valid = false ∧
    (validate_rating "").is_valid = true ∧
    (validate_runtime "0").is_valid = false ∧
    (validate_runtime "1").is_valid = true ∧
    (validate_runtime "").is_valid = true := by
  decide

/-- C8: a bounded search returns at most `M` results and its truncated flag
is true iff the number of matching candidates `K` exceeds `M`. -/
theorem search_result_bound (p : String → Bool) (cs : List String) (M : Nat) :
    (searchNfoFiles p cs M).1.length ≤ M ∧
    ((searchNfoFiles p cs M).2 = true ↔ M < (cs.filter p).length) := by
  constructor
  · simp [searchNfoFiles, List.length_take]
  · simp [searchNfoFiles]

/-- Maximum directory-nesting depth within a list of entries. -/
def listNesting : List FsEntry → Nat
  | [] => 0
  | FsEntry.file _ :: rest => listNesting rest
  | FsEntry.dir _ _ sub :: rest => max (1 + listNesting sub) (listNesting rest)

/-- The files a depth-unbounded scan would collect (dot-skipping, suffix
filtering and PermissionError behavior as in `scanEntries`). -/
def collectNfo : List FsEntry → List String
  | [] => []
  | FsEntry.file n :: rest =>
    if startsWithDot n then collectNfo rest
    else if pathSuffixLower n = ".nfo" then n :: collectNfo rest
    else collectNfo rest
  | FsEntry.dir n dn sub :: rest =>
    if startsWithDot n then collectNfo rest
    else (if dn then [] else collectNfo sub) ++ collectNfo rest

/-- A file lying exactly `k` directory levels below, with every directory
on the path non-dot-named and readable. -/
inductive DeepFile : FsEntry → Nat → Prop
  | file (n : String) : DeepFile (FsEntry.file n) 0
  | dir (n : String) (sub : List FsEntry) (e : FsEntry) (k : Nat) :
      startsWithDot n = false → e ∈ sub → DeepFile e k →
      DeepFile (FsEntry.dir n false sub) (k + 1)

theorem scanEntries_error_of_deep (entries : List FsEntry) (d : Nat) (hd : d ≤ 50)
    (hex : ∃ e ∈ entries, ∃ k, DeepFile e k ∧ 50 < d + k) :
    scanEntries entries d = Except.error () := by
  induction entries, d using scanEntries.induct with
  | case1 d => simp at hex
  | case2 n rest d hdot ih =>
    obtain ⟨e, he, k, hdf, hdk⟩ := hex
    rcases List.mem_cons.1 he with rfl | he
    · cases hdf
      · omega
    · simp [scanEntries, hdot, ih hd ⟨e, he, k, hdf, hdk⟩]
  | case3 n rest d hdot hsuf r hre ih =>
    obtain ⟨e, he, k, hdf, hdk⟩ := hex
    rcases List.mem_cons.1 he with rfl | he
    · cases hdf
      · omega
    · rw [ih hd ⟨e, he, k, hdf, hdk⟩] at hre
      exact absurd hre (by simp)
  | case4 n rest d hdot hsuf e2 hre ih =>
    simp [scanEntries, hdot, hsuf, hre]
  | case5 n rest d hdot hsuf ih =>
    obtain ⟨e, he, k, hdf, hdk⟩ := hex
    rcases List.mem_cons.1 he with rfl | he
    · cases hdf
      · omega
    · simp [scanEntries, hdot, hsuf, ih hd ⟨e, he, k, hdf, hdk⟩]
  | case6 n dn sub rest d hdot ih =>
    obtain ⟨e, he, k, hdf, hdk⟩ := hex
    rcases List.mem_cons.1 he with rfl | he
    · cases hdf with
      | dir _ _ e' k' hvis he' hdf' =>
        rw [hvis] at hdot
        exact absurd hdot Bool.false_ne_true
    · simp [scanEntries, hdot, ih hd ⟨e, he, k, hdf, hdk⟩]
  | case7 n dn sub rest d hdot hdepth =>
    simp [scanEntries, hdot, hdepth]
  | case8 n dn sub rest d hdot hdepth e2 hinner ihsub =>
    cases dn with
    | true =>
      rw [dif_pos rfl] at hinner
      exact absurd hinner (by simp)
    | false =>
      rw [dif_neg Bool.false_ne_true] at hinner
      simp [scanEntries, hdot, hdepth, hinner]
  | case9 n dn sub rest d hdot hdepth cf hinner r hre ihsub ih =>
    obtain ⟨e, he, k, hdf, hdk⟩ := hex
    rcases List.mem_cons.1 he with rfl | he
    · cases hdf with
      | dir _ _ e' k' hvis he' hdf' =>
        rw [MAX_SCAN_DEPTH] at hdepth
        have hsub := ihsub (by omega) ⟨e', he', k', hdf', by omega⟩
        rw [dif_neg Bool.false_ne_true, hsub] at hinner
        exact absurd hinner (by simp)
    · rw [ih hd ⟨e, he, k, hdf, hdk⟩] at hre
      exact absurd hre (by simp)
  | case10 n dn sub rest d hdot hdepth cf hinner e2 hre ihsub ih =>
    cases dn with
    | true =>
      simp [scanEntries, hdot, hdepth, hre]
    | false =>
      rw [dif_neg Bool.false_ne_true] at hinner
      simp [scanEntries, hdot, hdepth, hinner, hre]

/-- Completing scans: when directory nesting stays within the depth bound,
the scan succeeds and returns exactly the collected file paths. -/
theorem scanEntries_ok_of_shallow (entries : List FsEntry) (d : Nat)
    (h : d + listNesting entries ≤ 50) :
    scanEntries entries d = Except.ok (collectNfo entries) := by
  induction entries, d using scanEntries.induct with
  | case1 d => simp [scanEntries, collectNfo]
  | case2 n rest d hdot ih =>
    rw [listNesting] at h
    simp [scanEntries, collectNfo, hdot, ih h]
  | case3 n rest d hdot hsuf r hre ih =>
    rw [listNesting] at h
    have hr := ih h
    rw [hre] at hr
    injection hr with hr
    simp [scanEntries, collectNfo, hdot, hsuf, hre, hr]
  | case4 n rest d hdot hsuf e hre ih =>
    rw [listNesting] at h
    have hr := ih h
    rw [hre] at hr
    exact absurd hr (by simp)
  | case5 n rest d hdot hsuf ih =>
    rw [listNesting] at h
    simp [scanEntries, collectNfo, hdot, hsuf, ih h]
  | case6 n dn sub rest d hdot ih =>
    rw [listNesting] at h
    have hb : d + listNesting rest ≤ 50 := by omega
    simp [scanEntries, collectNfo, hdot, ih hb]
  | case7 n dn sub rest d hdot hdepth =>
    rw [listNesting] at h
    rw [MAX_SCAN_DEPTH] at hdepth
    omega
  | case8 n dn sub rest d hdot hdepth e hinner ihsub =>
    rw [listNesting] at h
    have hbs : d + 1 + listNesting sub ≤ 50 := by omega
    cases dn with
    | true =>
      rw [dif_pos rfl] at hinner
      exact absurd hinner (by simp)
    | false =>
      rw [dif_neg Bool.false_ne_true, ihsub hbs] at hinner
      exact absurd hinner (by simp)
  | case9 n dn sub rest d hdot hdepth cf hinner r hre ihsub ih =>
    rw [listNesting] at h
    have hbs : d + 1 + listNesting sub ≤ 50 := by omega
    have hbr : d + listNesting rest ≤ 50 := by omega
    have hr := ih hbr
    rw [hre] at hr
    injection hr with hr
    cases dn with
    | true =>
      rw [dif_pos rfl] at hinner
      injection hinner with hinner
      simp [scanEntries, collectNfo, hdot, hdepth, hre,
        ← hinner, hr]
    | false =>
      rw [dif_neg Bool.false_ne_true, ihsub hbs] at hinner
      injection hinner with hinner
      simp [scanEntries, collectNfo, hdot, hdepth, hre,
        ihsub hbs, ← hinner, hr]
  | case10 n dn sub rest d hdot hdepth cf hinner e hre ihsub ih =>
    rw [listNesting] at h
    have hbr : d + listNesting rest ≤ 50 := by omega
    have hr := ih hbr
    rw [hre] at hr
    exact absurd hr (by simp)

/-- Some file lies exactly `k` directory levels below this entry — the raw
geometric nesting the original claim speaks about (dot-named and denied
directories count). -/
inductive FileBelow : FsEntry → Nat → Prop
  | file (n : String) : FileBelow (FsEntry.file n) 0
  | dir (n : String) (dn : Bool) (sub : List FsEntry) (e : FsEntry) (k : Nat) :
      e ∈ sub → FileBelow e k → FileBelow (FsEntry.dir n dn sub) (k + 1)

/-- `nestDir m`: a chain of `m + 1` nested visible readable directories
with an `.nfo` file at the bottom. -/
def nestDir : Nat → FsEntry
  | 0 => FsEntry.dir "d0" false [FsEntry.file "x.nfo"]
  | m + 1 => FsEntry.dir "d" false [nestDir m]

theorem deepFile_nestDir (m : Nat) : DeepFile (nestDir m) (m + 1) := by
  induction m with
  | zero =>
    exact DeepFile.dir _ _ _ _ rfl (List.mem_cons_self _ _) (DeepFile.file _)
  | succ m ih =>
    exact DeepFile.dir _ _ _ _ rfl (List.mem_cons_self _ _) ih

theorem fileBelow_nestDir (m : Nat) : FileBelow (nestDir m) (m + 1) := by
  induction m with
  | zero =>
    exact FileBelow.dir _ _ _ _ _ (List.mem_cons_self _ _) (FileBelow.file _)
  | succ m ih =>
    exact FileBelow.dir _ _ _ _ _ (List.mem_cons_self _ _) ih

/-- The tree of the C9 counterexample: a dot-named directory hiding a
chain of 50 more directories with a file at the bottom, 51 levels below
the scan root. -/
def hiddenDeepTree : List FsEntry := [FsEntry.dir ".h" false [nestDir 49]]

/-- C9 (counterexample): the deepest file of `hiddenDeepTree` lies 51 > 50
nesting levels below the scan root, yet the scan completes without the
DepthExceeded error, returning no files — the dot-named directory is
skipped before the depth guard can ever fire beneath it.  (A
permission-denied directory above the depth cutoff hides deep files the
same way.) -/
theorem scan_skips_hidden_dir (sub : List FsEntry) :
    scanNfoFiles false [FsEntry.dir ".h" false sub] = Except.ok [] := by
  show scanEntries [FsEntry.dir ".h" false sub] 0 = Except.ok []
  have h1 : startsWithDot ".h" = true := by decide
  simp only [scanEntries, h1, if_true]

theorem scan_depth_claim_counterexample :
    (∃ e ∈ hiddenDeepTree, FileBelow e 51) ∧
    scanNfoFiles false hiddenDeepTree = Except.ok [] := by
  constructor
  · refine ⟨FsEntry.dir ".h" false [nestDir 49], List.mem_cons_self _ _, ?_⟩
    exact FileBelow.dir _ _ _ _ _ (List.mem_cons_self _ _) (fileBelow_nestDir 49)
  · exact scan_skips_hidden_dir [nestDir 49]

/-- C9 (amended): scanning raises DepthExceeded (aborting the scan)
whenever some file lies more than 50 nesting levels below the scan root
along a path of non-dot-named, readable directories, and a tree whose
directory nesting is 50 levels or fewer always completes without that
error, returning the collected sidecar file paths. -/
theorem scan_depth_limit (entries : List FsEntry) :
    ((∃ e ∈ entries, ∃ k, DeepFile e k ∧ 50 < k) →
      scanNfoFiles false entries = Except.error ()) ∧
    (listNesting entries ≤ 50 →
      scanNfoFiles false entries = Except.ok (collectNfo entries)) := by
  constructor
  · intro hex
    obtain ⟨e, he, k, hdf, hk⟩ := hex
    have h := scanEntries_error_of_deep entries 0 (by omega) ⟨e, he, k, hdf, by omega⟩
    exact h
  · intro hn
    exact scanEntries_ok_of_shallow entries 0 (by omega)

theorem scan_depth_limit_witness :
    scanNfoFiles false [nestDir 50] = Except.error () ∧
    scanNfoFiles false [FsEntry.file "a.nfo", FsEntry.dir "s" false [FsEntry.file "b.nfo"]] =
      Except.ok (collectNfo
        [FsEntry.file "a.nfo", FsEntry.dir "s" false [FsEntry.file "b.nfo"]]) := by
  constructor
  · exact (scan_depth_limit [nestDir 50]).1
      ⟨nestDir 50, List.mem_cons_self _ _, 51, deepFile_nestDir 50, by omega⟩
  · exact (scan_depth_limit _).2 (by norm_num [listNesting])

/-! ## Extra-bag bookkeeping (helpers for the codec claims) -/

/-- Association-list lookup in the extra bag (Python dict lookup). -/
def lookupEx (t : String) : List (String × ExtraVal) → Option ExtraVal
  | [] => none
  | (k, v) :: rest => if k = t then some v else lookupEx t rest

/-- Number of top-level elements carrying a given tag. -/
def countTag (t : String) (es : List Elem) : Nat :=
  (es.filter (fun e => e.tag = t)).length

/-- Number of fragments stored in one extra-bag value. -/
def countFrags : ExtraVal → Nat
  | ExtraVal.single _ => 1
  | ExtraVal.multi fs => fs.length

/-- Number of fragments stored under a tag in the bag. -/
def exCount (t : String) (ex : List (String × ExtraVal)) : Nat :=
  match lookupEx t ex with
  | none => 0
  | some v => countFrags v

/-- All fragments of a value are serialized elements of the given tag. -/
def valShaped (k : String) : ExtraVal → Prop
  | ExtraVal.single f => ∃ e, f = Fragment.wf e ∧ e.tag = k
  | ExtraVal.multi fs => ∀ f ∈ fs, ∃ e, f = Fragment.wf e ∧ e.tag = k

/-- Shape invariant of parse-produced bags at one tag: fragments are
well-formed with the right tag, and a list value only arises from at least
two repetitions. -/
def exShape (t : String) (ex : List (String × ExtraVal)) : Prop :=
  match lookupEx t ex with
  | none => True
  | some v => valShaped t v ∧ ∀ fs, v = ExtraVal.multi fs → 2 ≤ fs.length

/-- One step of `_parse_root`'s effect on the extra bag: recognized tags
leave it unchanged, anything else goes through `_add_extra_tag`. -/
def extraInsert (ex : List (String × ExtraVal)) (c : Elem) :
    List (String × ExtraVal) :=
  if c.tag ∈ knownTagsL then ex else addExtraTag ex c.tag c

/-- The keys of the bag, in insertion order. -/
def exKeys (ex : List (String × ExtraVal)) : List String := ex.map Prod.fst

theorem lookupEx_addExtraTag_self (t : String) (e : Elem) (ex : List (String × ExtraVal)) :
    lookupEx t (addExtraTag ex t e) = some
      (match lookupEx t ex with
       | none => ExtraVal.single (Fragment.wf e)
       | some (ExtraVal.single f) => ExtraVal.multi [f, Fragment.wf e]
       | some (ExtraVal.multi fs) => ExtraVal.multi (fs ++ [Fragment.wf e])) := by
  induction ex with
  | nil => simp [addExtraTag, lookupEx]
  | cons kv rest ih =>
    obtain ⟨k, v⟩ := kv
    by_cases hk : k = t
    · subst hk
      cases v <;> simp [addExtraTag, lookupEx]
    · cases v <;> simp [addExtraTag, lookupEx, hk, ih]

theorem lookupEx_addExtraTag_other {t k : String} (hne : k ≠ t) (e : Elem)
    (ex : List (String × ExtraVal)) :
    lookupEx t (addExtraTag ex k e) = lookupEx t ex := by
  induction ex with
  | nil => simp [addExtraTag, lookupEx, hne]
  | cons kv rest ih =>
    obtain ⟨k2, v⟩ := kv
    by_cases hk2 : k2 = k
    · subst hk2
      cases v <;> simp [addExtraTag, lookupEx, hne]
    · by_cases ht2 : k2 = t <;> cases v <;>
        simp [addExtraTag, lookupEx, hk2, ht2, ih, Ne.symm hne]

theorem exCount_extraInsert (t : String) (ht : t ∉ knownTagsL)
    (ex : List (String × ExtraVal)) (c : Elem) :
    exCount t (extraInsert ex c) = exCount t ex + (if c.tag = t then 1 else 0) := by
  unfold extraInsert
  by_cases hk : c.tag ∈ knownTagsL
  · rw [if_pos hk, if_neg (fun he => ht (by rw [← he]; exact hk))]
    rfl
  · rw [if_neg hk]
    by_cases hct : c.tag = t
    · subst hct
      rw [if_pos rfl]
      unfold exCount
      rw [lookupEx_addExtraTag_self]
      cases hl : lookupEx c.tag ex with
      | none => simp [countFrags]
      | some v => cases v <;> simp [countFrags]
    · rw [if_neg hct]
      unfold exCount
      rw [lookupEx_addExtraTag_other hct]
      rfl

theorem exShape_extraInsert {t : String} {ex : List (String × ExtraVal)}
    (hsh : exShape t ex) (c : Elem) : exShape t (extraInsert ex c) := by
  unfold extraInsert
  by_cases hk : c.tag ∈ knownTagsL
  · rwa [if_pos hk]
  · rw [if_neg hk]
    by_cases hct : c.tag = t
    · subst hct
      unfold exShape at hsh ⊢
      rw [lookupEx_addExtraTag_self]
      cases hl : lookupEx c.tag ex with
      | none =>
        refine ⟨⟨c, rfl, rfl⟩, ?_⟩
        intro fs hfs
        exact absurd hfs (by simp)
      | some v =>
        rw [hl] at hsh
        cases v with
        | single f =>
          obtain ⟨⟨e0, he0, ht0⟩, -⟩ := hsh
          refine ⟨?_, ?_⟩
          · intro f2 hf2
            rcases List.mem_cons.1 hf2 with rfl | hf2
            · exact ⟨e0, he0, ht0⟩
            · have : f2 = Fragment.wf c := by simpa using hf2
              subst this
              exact ⟨c, rfl, rfl⟩
          · intro fs hfs
            injection hfs with hfs
            subst hfs
            simp
        | multi fs =>
          obtain ⟨hwf, hlen⟩ := hsh
          refine ⟨?_, ?_⟩
          · intro f2 hf2
            rcases List.mem_append.1 hf2 with hf2 | hf2
            · exact hwf f2 hf2
            · have : f2 = Fragment.wf c := by simpa using hf2
              subst this
              exact ⟨c, rfl, rfl⟩
          · intro fs2 hfs2
            injection hfs2 with hfs2
            subst hfs2
            have := hlen fs rfl
            simp
            omega
    · unfold exShape at hsh ⊢
      rwa [lookupEx_addExtraTag_other hct]

theorem exCount_foldl (t : String) (ht : t ∉ knownTagsL) (cs : List Elem)
    (ex : List (String × ExtraVal)) :
    exCount t (cs.foldl extraInsert ex) = exCount t ex + countTag t cs := by
  induction cs generalizing ex with
  | nil => simp [countTag]
  | cons c cs ih =>
    rw [List.foldl_cons, ih, exCount_extraInsert t ht ex c]
    unfold countTag
    rw [List.filter_cons]
    by_cases hct : c.tag = t
    · simp [hct]
      omega
    · simp [hct]

theorem exShape_foldl {t : String} (cs : List Elem) {ex : List (String × ExtraVal)}
    (hsh : exShape t ex) : exShape t (cs.foldl extraInsert ex) := by
  induction cs generalizing ex with
  | nil => exact hsh
  | cons c cs ih => exact ih (exShape_extraInsert hsh c)

theorem exShape_nil (t : String) : exShape t [] := by
  unfold exShape lookupEx
  trivial

theorem exMulti_of_two_le {t : String} {ex : List (String × ExtraVal)}
    (hsh : exShape t ex) (h2 : 2 ≤ exCount t ex) :
    ∃ fs, lookupEx t ex = some (ExtraVal.multi fs) ∧ fs.length = exCount t ex ∧
      ∀ f ∈ fs, ∃ e, f = Fragment.wf e ∧ e.tag = t := by
  unfold exShape at hsh
  unfold exCount at h2 ⊢
  cases hl : lookupEx t ex with
  | none => rw [hl] at h2; simp at h2
  | some v =>
    rw [hl] at h2 hsh
    cases v with
    | single f => simp [countFrags] at h2
    | multi fs => exact ⟨fs, rfl, by simp [countFrags], hsh.1⟩

theorem parseChild_extra (s : NfoData) (c : Elem) :
    (parseChild s c).extra_tags = extraInsert s.extra_tags c := by
  unfold extraInsert
  by_cases hk : c.tag ∈ knownTagsL
  · rw [if_pos hk]
    simp only [knownTagsL, List.mem_cons, List.not_mem_nil, or_false] at hk
    rcases hk with h|h|h|h|h|h|h|h|h|h|h|h|h|h|h <;> simp [parseChild, h]
  · rw [if_neg hk]
    simp only [knownTagsL, List.mem_cons, List.not_mem_nil, or_false] at hk
    push_neg at hk
    simp [parseChild, hk]

theorem foldl_parseChild_extra (cs : List Elem) (s : NfoData) :
    (cs.foldl parseChild s).extra_tags = cs.foldl extraInsert s.extra_tags := by
  induction cs generalizing s with
  | nil => rfl
  | cons c cs ih => rw [List.foldl_cons, List.foldl_cons, ih, parseChild_extra]

theorem parseRoot_extra (root : Elem) :
    (parseRoot root).extra_tags = root.children.foldl extraInsert [] := by
  unfold parseRoot
  rw [foldl_parseChild_extra]

theorem mem_exKeys_of_lookupEx {t : String} {ex : List (String × ExtraVal)} {v : ExtraVal}
    (h : lookupEx t ex = some v) : t ∈ exKeys ex := by
  induction ex with
  | nil => simp [lookupEx] at h
  | cons kv rest ih =>
    obtain ⟨k, v2⟩ := kv
    by_cases hk : k = t
    · subst hk
      simp [exKeys]
    · rw [lookupEx, if_neg hk] at h
      simp [exKeys]
      right
      simpa [exKeys] using ih h

theorem lookupEx_eq_none_of_not_mem {t : String} {ex : List (String × ExtraVal)}
    (h : t ∉ exKeys ex) : lookupEx t ex = none := by
  induction ex with
  | nil => rfl
  | cons kv rest ih =>
    obtain ⟨k, v⟩ := kv
    simp [exKeys] at h
    rw [lookupEx, if_neg (fun he => h.1 he.symm)]
    exact ih (by simpa [exKeys] using h.2)

theorem exKeys_addExtraTag (ex : List (String × ExtraVal)) (k : String) (e : Elem) :
    exKeys (addExtraTag ex k e) =
      if k ∈ exKeys ex then exKeys ex else exKeys ex ++ [k] := by
  induction ex with
  | nil => simp [addExtraTag, exKeys]
  | cons kv rest ih =>
    obtain ⟨k2, v⟩ := kv
    by_cases hk : k2 = k
    · subst hk
      cases v <;> simp [addExtraTag, exKeys]
    · have h1 : addExtraTag ((k2, v) :: rest) k e = (k2, v) :: addExtraTag rest k e := by
        cases v <;> simp [addExtraTag, hk]
      rw [h1]
      have h2 : exKeys ((k2, v) :: addExtraTag rest k e) =
          k2 :: exKeys (addExtraTag rest k e) := rfl
      have h3 : exKeys ((k2, v) :: rest) = k2 :: exKeys rest := rfl
      rw [h2, ih, h3]
      by_cases hmem : k ∈ exKeys rest
      · rw [if_pos hmem, if_pos (List.mem_cons_of_mem _ hmem)]
      · rw [if_neg hmem, if_neg (fun hcon => by
          rcases List.mem_cons.1 hcon with h | h
          · exact hk h.symm
          · exact hmem h)]
        rfl

theorem exKeys_nodup_addExtraTag {ex : List (String × ExtraVal)}
    (h : (exKeys ex).Nodup) (k : String) (e : Elem) :
    (exKeys (addExtraTag ex k e)).Nodup := by
  rw [exKeys_addExtraTag]
  by_cases hm : k ∈ exKeys ex
  · simpa [hm] using h
  · simp [hm, List.nodup_append, h]

theorem exKeys_nodup_foldl (cs : List Elem) {ex : List (String × ExtraVal)}
    (h : (exKeys ex).Nodup) : (exKeys (cs.foldl extraInsert ex)).Nodup := by
  induction cs generalizing ex with
  | nil => exact h
  | cons c cs ih =>
    rw [List.foldl_cons]
    apply ih
    unfold extraInsert
    by_cases hk : c.tag ∈ knownTagsL
    · rwa [if_pos hk]
    · rw [if_neg hk]
      exact exKeys_nodup_addExtraTag h _ _

theorem countTag_append (t : String) (a b : List Elem) :
    countTag t (a ++ b) = countTag t a + countTag t b := by
  simp [countTag, List.filter_append]

theorem countTag_eq_zero_of_tags {t : String} {es : List Elem}
    (h : ∀ e ∈ es, e.tag ≠ t) : countTag t es = 0 := by
  unfold countTag
  rw [List.filter_eq_nil_iff.2]
  · rfl
  · intro e he
    simpa using h e he

theorem countTag_eq_length_of_tags {t : String} {es : List Elem}
    (h : ∀ e ∈ es, e.tag = t) : countTag t es = es.length := by
  unfold countTag
  rw [List.filter_eq_self.2]
  intro e he
  simpa using h e he

theorem extraValElems_tags {k : String} {v : ExtraVal} (h : valShaped k v) :
    ∀ e ∈ extraValElems v, e.tag = k := by
  cases v with
  | single f =>
    obtain ⟨e0, rfl, ht0⟩ := h
    intro e he
    have : e = e0 := by simpa [extraValElems, fragToElems] using he
    subst this
    exact ht0
  | multi fs =>
    intro e he
    simp only [extraValElems, List.mem_flatten, List.mem_map] at he
    obtain ⟨l, ⟨f, hf, rfl⟩, hel⟩ := he
    obtain ⟨e0, rfl, ht0⟩ := h f hf
    have : e = e0 := by simpa [fragToElems] using hel
    subst this
    exact ht0

theorem extraValElems_length {k : String} {v : ExtraVal} (h : valShaped k v) :
    (extraValElems v).length = countFrags v := by
  cases v with
  | single f =>
    obtain ⟨e0, rfl, -⟩ := h
    simp [extraValElems, fragToElems, countFrags]
  | multi fs =>
    induction fs with
    | nil => simp [extraValElems, countFrags]
    | cons f fs ih =>
      obtain ⟨e0, rfl, -⟩ := h f (List.mem_cons_self _ _)
      have := ih (fun f2 hf2 => h f2 (List.mem_cons_of_mem _ hf2))
      simp only [extraValElems, List.map_cons, List.flatten_cons, fragToElems,
        List.length_append, List.singleton_append, List.length_cons, countFrags] at this ⊢
      omega

theorem extrasElems_cons (kv : String × ExtraVal) (rest : List (String × ExtraVal)) :
    extrasElems (kv :: rest) = extraValElems kv.2 ++ extrasElems rest := by
  simp [extrasElems]

/-- For a bag with distinct keys whose every entry is well shaped, the
re-injected elements carry exactly `exCount t` elements of each tag `t`. -/
theorem countTag_extrasElems {t : String} {ex : List (String × ExtraVal)}
    (hnd : (exKeys ex).Nodup) (hsh : ∀ u, exShape u ex) :
    countTag t (extrasElems ex) = exCount t ex := by
  induction ex with
  | nil => simp [extrasElems, countTag, exCount, lookupEx]
  | cons kv rest ih =>
    obtain ⟨k, v⟩ := kv
    have hk_rest : k ∉ exKeys rest := by
      simp [exKeys] at hnd
      simpa [exKeys] using hnd.1
    have hnd_rest : (exKeys rest).Nodup := by
      simp [exKeys] at hnd ⊢
      exact hnd.2
    have hshape_head : valShaped k v := by
      have := hsh k
      unfold exShape at this
      rw [show lookupEx k ((k, v) :: rest) = some v from by simp [lookupEx]] at this
      exact this.1
    have hsh_rest : ∀ u, exShape u rest := by
      intro u
      by_cases hu : u = k
      · subst hu
        unfold exShape
        rw [lookupEx_eq_none_of_not_mem hk_rest]
        trivial
      · have hlk : lookupEx u ((k, v) :: rest) = lookupEx u rest := by
          rw [lookupEx, if_neg (fun he => hu he.symm)]
        have := hsh u
        unfold exShape at this ⊢
        rwa [hlk] at this
    rw [extrasElems_cons, countTag_append, ih hnd_rest hsh_rest]
    by_cases ht : t = k
    · subst ht
      rw [countTag_eq_length_of_tags (extraValElems_tags hshape_head),
        extraValElems_length hshape_head]
      unfold exCount
      rw [lookupEx_eq_none_of_not_mem hk_rest,
        show lookupEx t ((t, v) :: rest) = some v from by simp [lookupEx]]
      rfl
    · rw [countTag_eq_zero_of_tags
        (fun e he => by rw [extraValElems_tags hshape_head e he]; exact fun h2 => ht h2.symm)]
      unfold exCount
      rw [show lookupEx t ((k, v) :: rest) = lookupEx t rest from by
        rw [lookupEx, if_neg (fun he => ht he.symm)]]
      omega

theorem countTag_optTextElems {t tag : String} (hne : tag ≠ t) (x : String) :
    countTag t (optTextElems tag x) = 0 := by
  unfold optTextElems
  by_cases hx : x = ""
  · simp [hx, countTag]
  · rw [if_neg hx]
    apply countTag_eq_zero_of_tags
    intro e he
    have : e = textElem tag x := by simpa using he
    subst this
    simpa [textElem, Elem.tag] using hne

theorem countTag_flatten_opt {t tag : String} (hne : tag ≠ t) (xs : List String) :
    countTag t ((xs.map (optTextElems tag)).flatten) = 0 := by
  induction xs with
  | nil => simp [countTag]
  | cons x xs ih =>
    rw [List.map_cons, List.flatten_cons, countTag_append,
      countTag_optTextElems hne, ih]

theorem countTag_actors {t : String} (hne : "actor" ≠ t) (as : List Actor) :
    countTag t (as.map actorElem) = 0 := by
  apply countTag_eq_zero_of_tags
  intro e he
  obtain ⟨a, -, rfl⟩ := List.mem_map.1 he
  simpa [actorElem, Elem.tag] using hne

/-- Every known-field element the serializer emits carries a recognized
tag, so for an unrecognized `t` only the re-injected extras count. -/
theorem countTag_formatTree {t : String} (ht : t ∉ knownTagsL) (d : NfoData) :
    countTag t (formatTree d).children = countTag t (extrasElems d.extra_tags) := by
  have hne : ∀ tag ∈ knownTagsL, tag ≠ t := fun tag htag he => ht (he ▸ htag)
  have hblock : countTag t
      (if d.nfo_type = NfoType.tvshow ∨ d.nfo_type = NfoType.episodedetails then
        optTextElems "season" d.season ++ optTextElems "episode" d.episode ++
        optTextElems "aired" d.aired
      else []) = 0 := by
    split
    · rw [countTag_append, countTag_append,
        countTag_optTextElems (hne "season" (by decide)),
        countTag_optTextElems (hne "episode" (by decide)),
        countTag_optTextElems (hne "aired" (by decide))]
    · simp [countTag]
  unfold formatTree
  simp only [Elem.children, countTag_append]
  rw [countTag_optTextElems (hne "title" (by decide)),
    countTag_optTextElems (hne "originaltitle" (by decide)),
    countTag_optTextElems (hne "year" (by decide)),
    countTag_optTextElems (hne "plot" (by decide)),
    countTag_optTextElems (hne "runtime" (by decide)),
    countTag_optTextElems (hne "studio" (by decide)),
    countTag_optTextElems (hne "rating" (by decide)),
    countTag_flatten_opt (hne "genre" (by decide)),
    countTag_flatten_opt (hne "director" (by decide)),
    countTag_actors (hne "actor" (by decide)),
    countTag_optTextElems (hne "poster" (by decide)),
    countTag_optTextElems (hne "fanart" (by decide)),
    hblock]
  omega

set_option maxHeartbeats 2000000 in
/-- C2: for a document with `N > 1` top-level siblings of one unrecognized
tag name, parsing stores an ordered sequence of exactly `N` serialized
fragments under that name, and re-serializing then re-parsing again yields
a sequence of the same length `N` under that name. -/
theorem unknown_tag_preservation (root : Elem) (t : String)
    (ht : t ∉ knownTagsL) (hN : 2 ≤ countTag t root.children) :
    (∃ fs, lookupEx t (parseRoot root).extra_tags = some (ExtraVal.multi fs) ∧
      fs.length = countTag t root.children) ∧
    (∃ fs2, lookupEx t (parseRoot (formatTree (parseRoot root))).extra_tags =
      some (ExtraVal.multi fs2) ∧ fs2.length = countTag t root.children) := by
  have hbag1 : (parseRoot root).extra_tags = root.children.foldl extraInsert [] :=
    parseRoot_extra root
  have hcount1 : exCount t (parseRoot root).extra_tags = countTag t root.children := by
    rw [hbag1, exCount_foldl t ht]
    simp [exCount, lookupEx]
  have hshape1 : ∀ u, exShape u (parseRoot root).extra_tags := by
    intro u
    rw [hbag1]
    exact exShape_foldl _ (exShape_nil u)
  have hnd1 : (exKeys (parseRoot root).extra_tags).Nodup := by
    rw [hbag1]
    exact exKeys_nodup_foldl _ (by simp [exKeys])
  constructor
  · have h2a : 2 ≤ exCount t (parseRoot root).extra_tags := by
      rw [hcount1]
      exact hN
    obtain ⟨fs, hlk, hlen, -⟩ := exMulti_of_two_le (hshape1 t) h2a
    refine ⟨fs, hlk, ?_⟩
    rw [hlen, hcount1]
  · have hcount2 : countTag t (formatTree (parseRoot root)).children =
        countTag t root.children := by
      rw [countTag_formatTree ht, countTag_extrasElems hnd1 hshape1, hcount1]
    have hbag2 := parseRoot_extra (formatTree (parseRoot root))
    have hcount2b : exCount t (parseRoot (formatTree (parseRoot root))).extra_tags =
        countTag t root.children := by
      rw [hbag2, exCount_foldl t ht, hcount2]
      simp [exCount, lookupEx]
    have hshape2 : ∀ u, exShape u (parseRoot (formatTree (parseRoot root))).extra_tags := by
      intro u
      rw [hbag2]
      exact exShape_foldl _ (exShape_nil u)
    have h2b : 2 ≤ exCount t (parseRoot (formatTree (parseRoot root))).extra_tags := by
      rw [hcount2b]
      exact hN
    obtain ⟨fs2, hlk2, hlen2, -⟩ := exMulti_of_two_le (hshape2 t) h2b
    refine ⟨fs2, hlk2, ?_⟩
    rw [hlen2, hcount2b]

/-- The two-`<foo>` document used to exercise the unknown-tag theorem. -/
def c2root : Elem :=
  Elem.mk "movie" [] ""
    [Elem.mk "foo" [] "a" [], Elem.mk "title" [] "T" [], Elem.mk "foo" [] "b" []]

set_option maxHeartbeats 1000000 in
theorem unknown_tag_preservation_witness :
    (∃ fs, lookupEx "foo" (parseRoot c2root).extra_tags = some (ExtraVal.multi fs) ∧
      fs.length = countTag "foo" c2root.children) ∧
    (∃ fs2, lookupEx "foo" (parseRoot (formatTree (parseRoot c2root))).extra_tags =
      some (ExtraVal.multi fs2) ∧ fs2.length = countTag "foo" c2root.children) :=
  unknown_tag_preservation c2root "foo" (by decide) (by decide)

/-- Hypothesis on a hand-built extra entry: its fragments are well-formed
elements of exactly the entry's tag, and a list entry is nonempty. -/
def goodExtraVal (k : String) : ExtraVal → Prop
  | ExtraVal.single f => ∃ e, f = Fragment.wf e ∧ e.tag = k
  | ExtraVal.multi fs => fs ≠ [] ∧ ∀ f ∈ fs, ∃ e, f = Fragment.wf e ∧ e.tag = k

theorem valShaped_of_good {k : String} {v : ExtraVal} (h : goodExtraVal k v) :
    valShaped k v := by
  cases v with
  | single f => exact h
  | multi fs => exact h.2

theorem goodExtraVal_elems_pos {k : String} {v : ExtraVal} (h : goodExtraVal k v) :
    1 ≤ (extraValElems v).length := by
  rw [extraValElems_length (valShaped_of_good h)]
  cases v with
  | single f => simp [countFrags]
  | multi fs =>
    simp [countFrags]
    exact List.length_pos.2 h.1

theorem mem_exKeys_of_exCount_pos {t : String} {ex : List (String × ExtraVal)}
    (h : 1 ≤ exCount t ex) : t ∈ exKeys ex := by
  unfold exCount at h
  cases hl : lookupEx t ex with
  | none => rw [hl] at h; simp at h
  | some v => exact mem_exKeys_of_lookupEx hl

theorem detectType_value (t : NfoType) : detectType (NfoType.value t) = t := by
  cases t <;> rfl

/-- The actor serializer/parser pair is the identity. -/
theorem parseActor_actorElem (a : Actor) : parseActor (actorElem a) = a := by
  obtain ⟨nm, rl, th, od⟩ := a
  by_cases hr : rl = "" <;> by_cases ht : th = "" <;>
    simp [parseActor, actorElem, optTextElems, hr, ht, parseActorChild, textElem,
      Elem.tag, Elem.text, Elem.children, pyInt_intStr]

theorem foldl_opt_title (s : NfoData) (x : String) :
    List.foldl parseChild s (optTextElems "title" x) =
      { s with title := if x = "" then s.title else x } := by
  by_cases hx : x = ""
  · simp [optTextElems, hx]
  · simp only [optTextElems, if_neg hx, List.foldl_cons, List.foldl_nil]
    rfl

theorem foldl_opt_originaltitle (s : NfoData) (x : String) :
    List.foldl parseChild s (optTextElems "originaltitle" x) =
      { s with originaltitle := if x = "" then s.originaltitle else x } := by
  by_cases hx : x = ""
  · simp [optTextElems, hx]
  · simp only [optTextElems, if_neg hx, List.foldl_cons, List.foldl_nil]
    rfl

theorem foldl_opt_year (s : NfoData) (x : String) :
    List.foldl parseChild s (optTextElems "year" x) =
      { s with year := if x = "" then s.year else x } := by
  by_cases hx : x = ""
  · simp [optTextElems, hx]
  · simp only [optTextElems, if_neg hx, List.foldl_cons, List.foldl_nil]
    rfl

theorem foldl_opt_plot (s : NfoData) (x : String) :
    List.foldl parseChild s (optTextElems "plot" x) =
      { s with plot := if x = "" then s.plot else x } := by
  by_cases hx : x = ""
  · simp [optTextElems, hx]
  · simp only [optTextElems, if_neg hx, List.foldl_cons, List.foldl_nil]
    rfl

theorem foldl_opt_runtime (s : NfoData) (x : String) :
    List.foldl parseChild s (optTextElems "runtime" x) =
      { s with runtime := if x = "" then s.runtime else x } := by
  by_cases hx : x = ""
  · simp [optTextElems, hx]
  · simp only [optTextElems, if_neg hx, List.foldl_cons, List.foldl_nil]
    rfl

theorem foldl_opt_studio (s : NfoData) (x : String) :
    List.foldl parseChild s (optTextElems "studio" x) =
      { s with studio := if x = "" then s.studio else x } := by
  by_cases hx : x = ""
  · simp [optTextElems, hx]
  · simp only [optTextElems, if_neg hx, List.foldl_cons, List.foldl_nil]
    rfl

theorem foldl_opt_rating (s : NfoData) (x : String) :
    List.foldl parseChild s (optTextElems "rating" x) =
      { s with rating := if x = "" then s.rating else x } := by
  by_cases hx : x = ""
  · simp [optTextElems, hx]
  · simp only [optTextElems, if_neg hx, List.foldl_cons, List.foldl_nil]
    rfl

theorem foldl_opt_poster (s : NfoData) (x : String) :
    List.foldl parseChild s (optTextElems "poster" x) =
      { s with poster := if x = "" then s.poster else x } := by
  by_cases hx : x = ""
  · simp [optTextElems, hx]
  · simp only [optTextElems, if_neg hx, List.foldl_cons, List.foldl_nil]
    rfl

theorem foldl_opt_fanart (s : NfoData) (x : String) :
    List.foldl parseChild s (optTextElems "fanart" x) =
      { s with fanart := if x = "" then s.fanart else x } := by
  by_cases hx : x = ""
  · simp [optTextElems, hx]
  · simp only [optTextElems, if_neg hx, List.foldl_cons, List.foldl_nil]
    rfl

theorem foldl_opt_season (s : NfoData) (x : String) :
    List.foldl parseChild s (optTextElems "season" x) =
      { s with season := if x = "" then s.season else x } := by
  by_cases hx : x = ""
  · simp [optTextElems, hx]
  · simp only [optTextElems, if_neg hx, List.foldl_cons, List.foldl_nil]
    rfl

theorem foldl_opt_episode (s : NfoData) (x : String) :
    List.foldl parseChild s (optTextElems "episode" x) =
      { s with episode := if x = "" then s.episode else x } := by
  by_cases hx : x = ""
  · simp [optTextElems, hx]
  · simp only [optTextElems, if_neg hx, List.foldl_cons, List.foldl_nil]
    rfl

theorem foldl_opt_aired (s : NfoData) (x : String) :
    List.foldl parseChild s (optTextElems "aired" x) =
      { s with aired := if x = "" then s.aired else x } := by
  by_cases hx : x = ""
  · simp [optTextElems, hx]
  · simp only [optTextElems, if_neg hx, List.foldl_cons, List.foldl_nil]
    rfl

theorem parseChild_unknown {c : Elem} (hc : c.tag ∉ knownTagsL) (s : NfoData) :
    parseChild s c = { s with extra_tags := addExtraTag s.extra_tags c.tag c } := by
  simp only [knownTagsL, List.mem_cons, List.not_mem_nil, or_false] at hc
  push_neg at hc
  simp [parseChild, hc]

theorem foldl_unknown (es : List Elem) (s : NfoData)
    (h : ∀ e ∈ es, e.tag ∉ knownTagsL) :
    List.foldl parseChild s es =
      { s with extra_tags := es.foldl extraInsert s.extra_tags } := by
  induction es generalizing s with
  | nil => simp
  | cons c cs ih =>
    have hc := h c (List.mem_cons_self _ _)
    have heq : extraInsert s.extra_tags c = addExtraTag s.extra_tags c.tag c := by
      unfold extraInsert
      exact if_neg hc
    rw [List.foldl_cons, List.foldl_cons, heq, parseChild_unknown hc,
      ih _ (fun e he => h e (List.mem_cons_of_mem _ he))]

theorem foldl_genres (gs : List String) (s : NfoData) (h : ∀ g ∈ gs, g ≠ "") :
    List.foldl parseChild s ((gs.map (optTextElems "genre")).flatten) =
      { s with genres := s.genres ++ gs } := by
  induction gs generalizing s with
  | nil => simp
  | cons g gs ih =>
    have hg : g ≠ "" := h g (List.mem_cons_self _ _)
    rw [List.map_cons, List.flatten_cons, List.foldl_append]
    simp only [optTextElems, if_neg hg, List.foldl_cons, List.foldl_nil]
    rw [show parseChild s (textElem "genre" g) =
        { s with genres := s.genres ++ [g] } from rfl,
      ih _ (fun x hx => h x (List.mem_cons_of_mem _ hx))]
    simp

theorem foldl_directors (gs : List String) (s : NfoData) (h : ∀ g ∈ gs, g ≠ "") :
    List.foldl parseChild s ((gs.map (optTextElems "director")).flatten) =
      { s with directors := s.directors ++ gs } := by
  induction gs generalizing s with
  | nil => simp
  | cons g gs ih =>
    have hg : g ≠ "" := h g (List.mem_cons_self _ _)
    rw [List.map_cons, List.flatten_cons, List.foldl_append]
    simp only [optTextElems, if_neg hg, List.foldl_cons, List.foldl_nil]
    rw [show parseChild s (textElem "director" g) =
        { s with directors := s.directors ++ [g] } from rfl,
      ih _ (fun x hx => h x (List.mem_cons_of_mem _ hx))]
    simp

theorem foldl_actors (as : List Actor) (s : NfoData) :
    List.foldl parseChild s (as.map actorElem) = { s with actors := s.actors ++ as } := by
  induction as generalizing s with
  | nil => simp
  | cons a as ih =>
    rw [List.map_cons, List.foldl_cons,
      show parseChild s (actorElem a) =
        { s with actors := s.actors ++ [parseActor (actorElem a)] } from rfl,
      parseActor_actorElem, ih]
    simp

/-- C1 (amended): for every Record whose season/episode/aired are empty
when the kind is Movie, whose genre and director entries are non-empty,
and whose extra entries have non-colliding tag names (keys outside the
recognized-tag set) with well-formed fragments tagged exactly by their key
— conditions every parse-produced Record satisfies — re-parsing the
serialized tree reproduces the kind, every scalar field, the genre,
director and actor lists exactly, and every extra-tag name of the record
is present in the result's extra bag. -/
theorem parse_format_roundtrip (r : NfoData)
    (hkind : r.nfo_type = NfoType.movie → r.season = "" ∧ r.episode = "" ∧ r.aired = "")
    (hgen : ∀ g ∈ r.genres, g ≠ "")
    (hdir : ∀ g ∈ r.directors, g ≠ "")
    (hextra : ∀ kv ∈ r.extra_tags, kv.1 ∉ knownTagsL ∧ goodExtraVal kv.1 kv.2) :
    (parseRoot (formatTree r)).nfo_type = r.nfo_type ∧
    (parseRoot (formatTree r)).title = r.title ∧
    (parseRoot (formatTree r)).originaltitle = r.originaltitle ∧
    (parseRoot (formatTree r)).year = r.year ∧
    (parseRoot (formatTree r)).plot = r.plot ∧
    (parseRoot (formatTree r)).runtime = r.runtime ∧
    (parseRoot (formatTree r)).studio = r.studio ∧
    (parseRoot (formatTree r)).rating = r.rating ∧
    (parseRoot (formatTree r)).poster = r.poster ∧
    (parseRoot (formatTree r)).fanart = r.fanart ∧
    (parseRoot (formatTree r)).season = r.season ∧
    (parseRoot (formatTree r)).episode = r.episode ∧
    (parseRoot (formatTree r)).aired = r.aired ∧
    (parseRoot (formatTree r)).genres = r.genres ∧
    (parseRoot (formatTree r)).directors = r.directors ∧
    (parseRoot (formatTree r)).actors = r.actors ∧
    ∀ kv ∈ r.extra_tags, kv.1 ∈ exKeys (parseRoot (formatTree r)).extra_tags := by
  have hextags : ∀ e ∈ extrasElems r.extra_tags, e.tag ∉ knownTagsL := by
    intro e he
    simp only [extrasElems, List.mem_flatten, List.mem_map] at he
    obtain ⟨l, ⟨kv, hkv, rfl⟩, hel⟩ := he
    rw [extraValElems_tags (valShaped_of_good (hextra kv hkv).2) e hel]
    exact (hextra kv hkv).1
  have hmem : ∀ kv ∈ r.extra_tags,
      kv.1 ∈ exKeys ((extrasElems r.extra_tags).foldl extraInsert []) := by
    intro kv hkv
    have hone : 1 ≤ countTag kv.1 (extraValElems kv.2) := by
      rw [countTag_eq_length_of_tags
        (extraValElems_tags (valShaped_of_good (hextra kv hkv).2))]
      exact goodExtraVal_elems_pos (hextra kv hkv).2
    apply mem_exKeys_of_exCount_pos
    rw [exCount_foldl kv.1 (hextra kv hkv).1]
    obtain ⟨l1, l2, hsplit⟩ := List.append_of_mem hkv
    rw [hsplit]
    rw [show extrasElems (l1 ++ kv :: l2) =
        extrasElems l1 ++ (extraValElems kv.2 ++ extrasElems l2) from by
      simp [extrasElems]]
    simp only [countTag_append]
    have h0 : exCount kv.1 ([] : List (String × ExtraVal)) = 0 := rfl
    omega
  by_cases htv : r.nfo_type = NfoType.tvshow ∨ r.nfo_type = NfoType.episodedetails
  · have hmain : parseRoot (formatTree r) =
        { nfo_type := detectType (NfoType.value r.nfo_type),
          title := if r.title = "" then "" else r.title,
          originaltitle := if r.originaltitle = "" then "" else r.originaltitle,
          year := if r.year = "" then "" else r.year,
          plot := if r.plot = "" then "" else r.plot,
          runtime := if r.runtime = "" then "" else r.runtime,
          genres := r.genres,
          directors := r.directors,
          actors := r.actors,
          studio := if r.studio = "" then "" else r.studio,
          rating := if r.rating = "" then "" else r.rating,
          poster := if r.poster = "" then "" else r.poster,
          fanart := if r.fanart = "" then "" else r.fanart,
          season := if r.season = "" then "" else r.season,
          episode := if r.episode = "" then "" else r.episode,
          aired := if r.aired = "" then "" else r.aired,
          extra_tags := (extrasElems r.extra_tags).foldl extraInsert [] } := by
      unfold parseRoot formatTree
      simp only [Elem.tag, Elem.children, if_pos htv, List.foldl_append]
      rw [foldl_opt_title, foldl_opt_originaltitle, foldl_opt_year, foldl_opt_plot,
        foldl_opt_runtime, foldl_opt_studio, foldl_opt_rating,
        foldl_genres _ _ hgen, foldl_directors _ _ hdir, foldl_actors,
        foldl_opt_poster, foldl_opt_fanart, foldl_opt_season, foldl_opt_episode,
        foldl_opt_aired, foldl_unknown _ _ hextags]
      rfl
    rw [hmain]
    refine ⟨detectType_value r.nfo_type, ?_, ?_, ?_, ?_, ?_, ?_, ?_, ?_, ?_, ?_,
      ?_, ?_, rfl, rfl, rfl, hmem⟩
    · by_cases hx : r.title = "" <;> simp [hx]
    · by_cases hx : r.originaltitle = "" <;> simp [hx]
    · by_cases hx : r.year = "" <;> simp [hx]
    · by_cases hx : r.plot = "" <;> simp [hx]
    · by_cases hx : r.runtime = "" <;> simp [hx]
    · by_cases hx : r.studio = "" <;> simp [hx]
    · by_cases hx : r.rating = "" <;> simp [hx]
    · by_cases hx : r.poster = "" <;> simp [hx]
    · by_cases hx : r.fanart = "" <;> simp [hx]
    · by_cases hx : r.season = "" <;> simp [hx]
    · by_cases hx : r.episode = "" <;> simp [hx]
    · by_cases hx : r.aired = "" <;> simp [hx]
  · have hmov : r.nfo_type = NfoType.movie := by
      push_neg at htv
      cases hk : r.nfo_type
      · rfl
      · exact absurd hk htv.1
      · exact absurd hk htv.2
    obtain ⟨hs, he, ha⟩ := hkind hmov
    have hmain : parseRoot (formatTree r) =
        { nfo_type := detectType (NfoType.value r.nfo_type),
          title := if r.title = "" then "" else r.title,
          originaltitle := if r.originaltitle = "" then "" else r.originaltitle,
          year := if r.year = "" then "" else r.year,
          plot := if r.plot = "" then "" else r.plot,
          runtime := if r.runtime = "" then "" else r.runtime,
          genres := r.genres,
          directors := r.directors,
          actors := r.actors,
          studio := if r.studio = "" then "" else r.studio,
          rating := if r.rating = "" then "" else r.rating,
          poster := if r.poster = "" then "" else r.poster,
          fanart := if r.fanart = "" then "" else r.fanart,
          season := "",
          episode := "",
          aired := "",
          extra_tags := (extrasElems r.extra_tags).foldl extraInsert [] } := by
      unfold parseRoot formatTree
      simp only [Elem.tag, Elem.children, if_neg htv, List.foldl_append,
        List.foldl_nil]
      rw [foldl_opt_title, foldl_opt_originaltitle, foldl_opt_year, foldl_opt_plot,
        foldl_opt_runtime, foldl_opt_studio, foldl_opt_rating,
        foldl_genres _ _ hgen, foldl_directors _ _ hdir, foldl_actors,
        foldl_opt_poster, foldl_opt_fanart, foldl_unknown _ _ hextags]
      rfl
    rw [hmain]
    refine ⟨detectType_value r.nfo_type, ?_, ?_, ?_, ?_, ?_, ?_, ?_, ?_, ?_,
      hs.symm, he.symm, ha.symm, rfl, rfl, rfl, hmem⟩
    · by_cases hx : r.title = "" <;> simp [hx]
    · by_cases hx : r.originaltitle = "" <;> simp [hx]
    · by_cases hx : r.year = "" <;> simp [hx]
    · by_cases hx : r.plot = "" <;> simp [hx]
    · by_cases hx : r.runtime = "" <;> simp [hx]
    · by_cases hx : r.studio = "" <;> simp [hx]
    · by_cases hx : r.rating = "" <;> simp [hx]
    · by_cases hx : r.poster = "" <;> simp [hx]
    · by_cases hx : r.fanart = "" <;> simp [hx]

/-- A concrete record with every field class populated, used to exercise
the round-trip theorem. -/
def c1rec : NfoData :=
  { nfo_type := NfoType.movie, title := "T", year := "2000",
    genres := ["Action"], directors := ["D"],
    actors := [{ name := "A", role := "R", thumb := "", order := 2 }],
    studio := "S",
    extra_tags := [("uniqueid",
      ExtraVal.single (Fragment.wf (Elem.mk "uniqueid" [("type", "imdb")] "tt1" [])))] }

theorem parse_format_roundtrip_witness :
    (parseRoot (formatTree c1rec)).nfo_type = c1rec.nfo_type ∧
    (parseRoot (formatTree c1rec)).title = c1rec.title ∧
    (parseRoot (formatTree c1rec)).originaltitle = c1rec.originaltitle ∧
    (parseRoot (formatTree c1rec)).year = c1rec.year ∧
    (parseRoot (formatTree c1rec)).plot = c1rec.plot ∧
    (parseRoot (formatTree c1rec)).runtime = c1rec.runtime ∧
    (parseRoot (formatTree c1rec)).studio = c1rec.studio ∧
    (parseRoot (formatTree c1rec)).rating = c1rec.rating ∧
    (parseRoot (formatTree c1rec)).poster = c1rec.poster ∧
    (parseRoot (formatTree c1rec)).fanart = c1rec.fanart ∧
    (parseRoot (formatTree c1rec)).season = c1rec.season ∧
    (parseRoot (formatTree c1rec)).episode = c1rec.episode ∧
    (parseRoot (formatTree c1rec)).aired = c1rec.aired ∧
    (parseRoot (formatTree c1rec)).genres = c1rec.genres ∧
    (parseRoot (formatTree c1rec)).directors = c1rec.directors ∧
    (parseRoot (formatTree c1rec)).actors = c1rec.actors ∧
    ∀ kv ∈ c1rec.extra_tags, kv.1 ∈ exKeys (parseRoot (formatTree c1rec)).extra_tags := by
  apply parse_format_roundtrip c1rec
  · intro _
    exact ⟨rfl, rfl, rfl⟩
  · intro g hg
    simp [c1rec] at hg
    subst hg
    decide
  · intro g hg
    simp [c1rec] at hg
    subst hg
    decide
  · intro kv hkv
    simp [c1rec] at hkv
    subst hkv
    exact ⟨by decide, ⟨Elem.mk "uniqueid" [("type", "imdb")] "tt1" [], rfl, rfl⟩⟩

/-- The Movie record with a non-empty season used to refute C1 as stated. -/
def c1bad : NfoData :=
  { nfo_type := NfoType.movie, title := "T", season := "5" }

/-- C1 (counterexample): a Movie record with non-empty season — non-empty
required fields, an empty extra bag, so no colliding extra-tag names —
loses the season on a round trip: `format_xml` emits season/episode/aired
only for the TVShow/Episode kinds, so `parse_string(format_xml(r))`
returns season `""` while `r.season = "5"`. -/
theorem roundtrip_claim_counterexample :
    c1bad.title ≠ "" ∧ c1bad.extra_tags = [] ∧ c1bad.season = "5" ∧
    (parseRoot (formatTree c1bad)).season = "" := by
  refine ⟨by decide, rfl, rfl, ?_⟩
  rfl

end NfoSpec
